import Mathlib

/-!
Shallow embedding of the slitter slab allocator (backtrace-labs/slitter)
used to settle the claims of the specification against the source.

The embedding covers:
* `magazine_impl.rs`: polarity-typed magazines over a shared storage;
* `class.rs`: the global class registry;
* `press.rs`: the chunk-based press (2 MiB chunks, bump allocation) and
  `check_allocation`;
* `mill.rs`: span milling (1 GiB chunks, 16 KiB spans);
* `cache.rs`: the thread-local cache arrays;
* a sequential whole-system model (press + magazines + depot + cache)
  for the trace invariants.

Machine integers are modelled as `Nat`/`Int` with explicit wrap-around
where the source can overflow.  Addresses are `Nat`.
-/

namespace Slitter

/-- Casts an `Int` to the value of the corresponding Rust `as u32` cast
(two's-complement wrap-around modulo `2^32`). -/
def u32cast (i : Int) : Nat := (i % (2 ^ 32 : Int)).toNat

/-- Casts an `Int` to the value of the corresponding Rust `as usize` cast
on a 64-bit target (wrap-around modulo `2^64`). -/
def usizeCast (i : Int) : Nat := (i % (2 ^ 64 : Int)).toNat

theorem u32cast_of_nat (n : Nat) (h : n < 2 ^ 32) : u32cast n = n := by
  unfold u32cast
  rw [Int.emod_eq_of_lt (by positivity) (by exact_mod_cast h)]
  simp

theorem usizeCast_of_nat (n : Nat) (h : n < 2 ^ 64) : usizeCast n = n := by
  unfold usizeCast
  rw [Int.emod_eq_of_lt (by positivity) (by exact_mod_cast h)]
  simp

/-! ## Magazines (`magazine_impl.rs`) -/

/-- Capacity of a magazine: `MAGAZINE_SIZE` in `magazine_impl.rs`
(production value, not the `test_only_small_constants` one). -/
def MAGAZINE_SIZE : Nat := 30

/-- Model of `MagazineStorage` (`magazine_impl.rs`).  The `allocations`
array of `MaybeUninit<LinearRef>` is modelled as a length-`MAGAZINE_SIZE`
list of addresses; a `LinearRef` is a non-null pointer, so a live slot
holds a non-zero address, and uninitialised slots hold arbitrary values
that are never read.  `link` holds the address of the next storage on an
intrusive stack (`None` outside a stack). -/
structure MagazineStorage where
  num_allocated_slow : Nat
  allocations : List Nat
  link : Option Nat
deriving Repr, DecidableEq

/-- Model of `MagazineImpl<const PUSH_MAG: bool>` (`magazine_impl.rs`):
a `top_of_stack : isize` plus optional backing storage (the source holds
a `&'static mut MagazineStorage`; the model holds the storage by value). -/
structure MagazineImpl (PUSH_MAG : Bool) where
  top_of_stack : Int
  inner : Option MagazineStorage
deriving Repr, DecidableEq

namespace MagazineImpl

/-- `MagazineImpl::<PUSH_MAG>::new` (`magazine_impl.rs` lines 83-108):
wraps optional storage; a push magazine starts at
`num_allocated_slow - MAGAZINE_SIZE`, a pop magazine at
`num_allocated_slow`; without storage, `top_of_stack = 0`. -/
def new (PUSH_MAG : Bool) (maybe_inner : Option MagazineStorage) :
    MagazineImpl PUSH_MAG :=
  match maybe_inner with
  | some inner =>
    if PUSH_MAG then
      { top_of_stack := (inner.num_allocated_slow : Int) - (MAGAZINE_SIZE : Int),
        inner := some inner }
    else
      { top_of_stack := (inner.num_allocated_slow : Int), inner := some inner }
  | none => { top_of_stack := 0, inner := none }

/-- `MagazineImpl::has_storage`. -/
def has_storage {b : Bool} (self : MagazineImpl b) : Bool := self.inner.isSome

/-- `MagazineImpl::storage` (`magazine_impl.rs` lines 121-141): extracts
the backing storage after writing back `num_allocated_slow`
(`(MAGAZINE_SIZE as isize + top_of_stack) as u32` for push,
`top_of_stack as u32` for pop). -/
def storage {b : Bool} (self : MagazineImpl b) : Option MagazineStorage :=
  match self.inner with
  | none => none
  | some inner =>
    if b then
      some { inner with
             num_allocated_slow := u32cast ((MAGAZINE_SIZE : Int) + self.top_of_stack) }
    else
      some { inner with num_allocated_slow := u32cast self.top_of_stack }

/-- `MagazineImpl::is_full`. -/
def is_full {b : Bool} (self : MagazineImpl b) : Bool :=
  if b then self.top_of_stack == 0
  else self.top_of_stack == (MAGAZINE_SIZE : Int)

/-- `MagazineImpl::is_empty`. -/
def is_empty {b : Bool} (self : MagazineImpl b) : Bool :=
  if b then self.top_of_stack == -(MAGAZINE_SIZE : Int)
  else self.top_of_stack == 0

/-- `MagazineImpl::len` (`magazine_impl.rs` lines 165-171):
`(top_of_stack + MAGAZINE_SIZE) as usize` for push, `top_of_stack as
usize` for pop. -/
def len {b : Bool} (self : MagazineImpl b) : Nat :=
  if b then usizeCast (self.top_of_stack + (MAGAZINE_SIZE : Int))
  else usizeCast self.top_of_stack

/-- `MagazineImpl::check_rep` (`magazine_impl.rs` lines 190-228), plus
the representation condition that the modelled `allocations` list has
the array's fixed length. -/
def check_rep {b : Bool} (self : MagazineImpl b) : Prop :=
  match self.inner with
  | none => self.top_of_stack = 0
  | some inner =>
    inner.link = none ∧
    (if b then
      -(MAGAZINE_SIZE : Int) ≤ self.top_of_stack ∧ self.top_of_stack ≤ 0
    else
      0 ≤ self.top_of_stack ∧ self.top_of_stack ≤ (MAGAZINE_SIZE : Int)) ∧
    inner.allocations.length = MAGAZINE_SIZE ∧
    ∀ i < self.len, inner.allocations.getD i 0 ≠ 0

instance {b : Bool} (self : MagazineImpl b) : Decidable self.check_rep := by
  unfold check_rep
  cases self.inner <;> dsimp only <;> infer_instance

/-- `MagazineImpl::<true>::put` (`magazine_impl.rs` lines 261-277): push
`freed`; on a full magazine return it unchanged, otherwise write it at
slot `(MAGAZINE_SIZE as isize + index) as usize` and bump
`top_of_stack`.  When `top_of_stack ≠ 0` with no storage the source
panics (`expect`); `check_rep` excludes that state and the model leaves
the (absent) storage unchanged there. -/
def put (self : MagazineImpl true) (freed : Nat) :
    Option Nat × MagazineImpl true :=
  let index := self.top_of_stack
  if index = 0 then (some freed, self)
  else
    match self.inner with
    | some inner =>
      (none,
       { top_of_stack := index + 1,
         inner := some { inner with
           allocations := inner.allocations.set
             (usizeCast ((MAGAZINE_SIZE : Int) + index)) freed } })
    | none => (none, { self with top_of_stack := index + 1 })

/-- `MagazineImpl::<false>::get` (`magazine_impl.rs` lines 322-338): pop
the element below `top_of_stack`.  The source swaps the slot with
`MaybeUninit::uninit()`; the model writes `0` into the vacated slot
(its content is never read again).  The no-storage panic case is as in
`put`. -/
def get (self : MagazineImpl false) : Option Nat × MagazineImpl false :=
  if self.top_of_stack = 0 then (none, self)
  else
    let top := self.top_of_stack - 1
    match self.inner with
    | some inner =>
      (some (inner.allocations.getD (usizeCast top) 0),
       { top_of_stack := top,
         inner := some { inner with
           allocations := inner.allocations.set (usizeCast top) 0 } })
    | none => (none, { self with top_of_stack := top })

/-- `MagazineImpl::<false>::commit_populated` (`magazine_impl.rs` lines
351-357): mark `count` additional slots as populated. -/
def commit_populated (self : MagazineImpl false) (count : Nat) :
    MagazineImpl false :=
  { self with top_of_stack := self.top_of_stack + (count : Int) }

end MagazineImpl

/-- CLAIM C6 -- Polarity conversion preserves count: for a storage
holding `k ≤ MAGAZINE_SIZE` elements, wrapping it as a push (resp. pop)
magazine, extracting the storage back (which rewrites
`num_allocated_slow`), and rewrapping in the opposite polarity yields a
magazine holding exactly `k` elements again, in both directions, and the
stored element values (`allocations`) are unchanged throughout. -/
theorem c6_polarity_conversion_preserves_count
    (s : MagazineStorage) (h : s.num_allocated_slow ≤ MAGAZINE_SIZE) :
    (MagazineImpl.new true (some s)).len = s.num_allocated_slow ∧
    (MagazineImpl.new false (some s)).len = s.num_allocated_slow ∧
    (∃ s₁, (MagazineImpl.new true (some s)).storage = some s₁ ∧
      s₁.allocations = s.allocations ∧
      s₁.num_allocated_slow = s.num_allocated_slow ∧
      (MagazineImpl.new false (some s₁)).len = s.num_allocated_slow) ∧
    (∃ s₂, (MagazineImpl.new false (some s)).storage = some s₂ ∧
      s₂.allocations = s.allocations ∧
      s₂.num_allocated_slow = s.num_allocated_slow ∧
      (MagazineImpl.new true (some s₂)).len = s.num_allocated_slow) := by
  have hcast32 : u32cast (s.num_allocated_slow : Int) = s.num_allocated_slow := by
    unfold u32cast
    rw [Int.emod_eq_of_lt (by positivity) (by
      have hm : (MAGAZINE_SIZE : Nat) = 30 := rfl
      omega)]
    simp
  have hcast64 : usizeCast (s.num_allocated_slow : Int) = s.num_allocated_slow := by
    unfold usizeCast
    rw [Int.emod_eq_of_lt (by positivity) (by
      have hm : (MAGAZINE_SIZE : Nat) = 30 := rfl
      omega)]
    simp
  have hpushlen : ∀ t : MagazineStorage, t.num_allocated_slow = s.num_allocated_slow →
      (MagazineImpl.new true (some t)).len = s.num_allocated_slow := by
    intro t ht
    have hr : (MagazineImpl.new true (some t)).len
        = usizeCast ((t.num_allocated_slow : Int) - (MAGAZINE_SIZE : Int)
            + (MAGAZINE_SIZE : Int)) := rfl
    rw [hr, show (t.num_allocated_slow : Int) - (MAGAZINE_SIZE : Int)
          + (MAGAZINE_SIZE : Int) = (t.num_allocated_slow : Int) from by ring,
        ht, hcast64]
  have hpoplen : ∀ t : MagazineStorage, t.num_allocated_slow = s.num_allocated_slow →
      (MagazineImpl.new false (some t)).len = s.num_allocated_slow := by
    intro t ht
    have hr : (MagazineImpl.new false (some t)).len
        = usizeCast (t.num_allocated_slow : Int) := rfl
    rw [hr, ht, hcast64]
  refine ⟨hpushlen s rfl, hpoplen s rfl, ?_, ?_⟩
  · refine ⟨{ s with num_allocated_slow := s.num_allocated_slow }, ?_, rfl, rfl, ?_⟩
    · have hr : (MagazineImpl.new true (some s)).storage
          = some { s with num_allocated_slow := u32cast ((MAGAZINE_SIZE : Int)
              + ((s.num_allocated_slow : Int) - (MAGAZINE_SIZE : Int))) } := rfl
      rw [hr, show (MAGAZINE_SIZE : Int) + ((s.num_allocated_slow : Int)
            - (MAGAZINE_SIZE : Int)) = (s.num_allocated_slow : Int) from by ring,
          hcast32]
    · exact hpoplen _ rfl
  · refine ⟨{ s with num_allocated_slow := s.num_allocated_slow }, ?_, rfl, rfl, ?_⟩
    · have hr : (MagazineImpl.new false (some s)).storage
          = some { s with num_allocated_slow := u32cast (s.num_allocated_slow : Int) } := rfl
      rw [hr, hcast32]
    · exact hpushlen _ rfl

/-- Witness for C6 at a concrete storage holding two elements. -/
theorem c6_polarity_conversion_preserves_count_witness :
    (⟨2, [7, 8, 0, 0, 0, 0, 0, 0, 0, 0, 0, 0, 0, 0, 0, 0, 0, 0, 0, 0, 0, 0,
         0, 0, 0, 0, 0, 0, 0, 0], none⟩ : MagazineStorage).num_allocated_slow
      ≤ MAGAZINE_SIZE ∧
    (MagazineImpl.new true (some
      (⟨2, [7, 8, 0, 0, 0, 0, 0, 0, 0, 0, 0, 0, 0, 0, 0, 0, 0, 0, 0, 0, 0, 0,
           0, 0, 0, 0, 0, 0, 0, 0], none⟩ : MagazineStorage))).len = 2 := by
  have h := c6_polarity_conversion_preserves_count
    ⟨2, [7, 8, 0, 0, 0, 0, 0, 0, 0, 0, 0, 0, 0, 0, 0, 0, 0, 0, 0, 0, 0, 0,
         0, 0, 0, 0, 0, 0, 0, 0], none⟩ (by decide)
  exact ⟨by decide, h.1⟩

/-- CLAIM C7 (counterexample) -- the claim states that no pop-magazine
operation other than a polarity conversion makes its count grow; but
`MagazineImpl::<false>::commit_populated` (a pop-magazine operation used
by the refill path, satisfying its `count <= MAGAZINE_SIZE -
top_of_stack` precondition) grows an empty pop magazine from 0 to 3
elements. -/
theorem c7_counterexample :
    ((MagazineImpl.new false (some
        (⟨0, [1, 1, 1, 1, 1, 1, 1, 1, 1, 1, 1, 1, 1, 1, 1, 1, 1, 1, 1, 1, 1,
             1, 1, 1, 1, 1, 1, 1, 1, 1], none⟩ : MagazineStorage))).len = 0) ∧
    (3 : Nat) ≤ MAGAZINE_SIZE ∧
    ((MagazineImpl.new false (some
        (⟨0, [1, 1, 1, 1, 1, 1, 1, 1, 1, 1, 1, 1, 1, 1, 1, 1, 1, 1, 1, 1, 1,
             1, 1, 1, 1, 1, 1, 1, 1, 1], none⟩ : MagazineStorage))).commit_populated
        3).len = 3 := by
  decide

/-- CLAIM C7 (amended) -- Magazine polarity monotonicity, as corrected:
`put` on a push magazine never decreases the count; `get` on a pop
magazine never increases the count; and besides polarity conversion the
one pop-magazine operation that grows the count is `commit_populated`,
which adds exactly its `count` argument (under its contract
`count ≤ MAGAZINE_SIZE - top_of_stack`). -/
theorem c7_polarity_monotonicity_amended
    (mp : MagazineImpl true) (mq : MagazineImpl false) (freed count : Nat)
    (hp : mp.check_rep) (hq : mq.check_rep)
    (hc : (count : Int) ≤ (MAGAZINE_SIZE : Int) - mq.top_of_stack) :
    mp.len ≤ (mp.put freed).2.len ∧
    (mq.get).2.len ≤ mq.len ∧
    (mq.commit_populated count).len = mq.len + count := by
  have hcast : ∀ t : Int, 0 ≤ t → t ≤ 2 * (MAGAZINE_SIZE : Int) →
      usizeCast t = t.toNat := by
    intro t h1 h2
    unfold usizeCast
    rw [Int.emod_eq_of_lt (by omega) (by
      have hm : (MAGAZINE_SIZE : Nat) = 30 := rfl
      omega)]
  obtain ⟨tp, innp⟩ := mp
  obtain ⟨tq, innq⟩ := mq
  have hpb : -(MAGAZINE_SIZE : Int) ≤ tp ∧ tp ≤ 0 := by
    unfold MagazineImpl.check_rep at hp
    cases innp with
    | none => simp only at hp; simp [hp]
    | some inner => simpa using hp.2.1
  have hqb : 0 ≤ tq ∧ tq ≤ (MAGAZINE_SIZE : Int) := by
    unfold MagazineImpl.check_rep at hq
    cases innq with
    | none => simp only at hq; simp [hq]
    | some inner => simpa using hq.2.1
  have hlenp : (⟨tp, innp⟩ : MagazineImpl true).len = usizeCast (tp + (MAGAZINE_SIZE : Int)) := rfl
  have hlenq : (⟨tq, innq⟩ : MagazineImpl false).len = usizeCast tq := rfl
  refine ⟨?_, ?_, ?_⟩
  · by_cases h0 : tp = 0
    · subst h0
      have : ((⟨0, innp⟩ : MagazineImpl true).put freed).2 = ⟨0, innp⟩ := by
        unfold MagazineImpl.put
        simp
      rw [this]
    · unfold MagazineImpl.put
      cases innp with
      | none =>
        simp only [if_neg h0]
        rw [hlenp, show (⟨tp + 1, none⟩ : MagazineImpl true).len
            = usizeCast (tp + 1 + (MAGAZINE_SIZE : Int)) from rfl]
        rw [hcast _ (by omega) (by omega), hcast _ (by omega) (by omega)]
        omega
      | some inner =>
        simp only [if_neg h0]
        rw [hlenp]
        have : ∀ al, (⟨tp + 1, some al⟩ : MagazineImpl true).len
            = usizeCast (tp + 1 + (MAGAZINE_SIZE : Int)) := fun _ => rfl
        rw [this]
        rw [hcast _ (by omega) (by omega), hcast _ (by omega) (by omega)]
        omega
  · by_cases h0 : tq = 0
    · subst h0
      have : ((⟨0, innq⟩ : MagazineImpl false).get).2 = ⟨0, innq⟩ := by
        unfold MagazineImpl.get
        simp
      rw [this]
    · unfold MagazineImpl.get
      cases innq with
      | none =>
        simp only [if_neg h0]
        rw [hlenq, show (⟨tq - 1, none⟩ : MagazineImpl false).len
            = usizeCast (tq - 1) from rfl]
        rw [hcast _ (by omega) (by omega), hcast _ (by omega) (by omega)]
        omega
      | some inner =>
        simp only [if_neg h0]
        rw [hlenq]
        have : ∀ al, (⟨tq - 1, some al⟩ : MagazineImpl false).len
            = usizeCast (tq - 1) := fun _ => rfl
        rw [this]
        rw [hcast _ (by omega) (by omega), hcast _ (by omega) (by omega)]
        omega
  · have hc' : (count : Int) ≤ (MAGAZINE_SIZE : Int) - tq := hc
    unfold MagazineImpl.commit_populated
    rw [hlenq, show (⟨tq + (count : Int), innq⟩ : MagazineImpl false).len
        = usizeCast (tq + (count : Int)) from rfl]
    rw [hcast _ (by omega) (by omega), hcast _ (by omega) (by omega)]
    omega

/-- Witness for the amended C7 at concrete magazines. -/
theorem c7_polarity_monotonicity_amended_witness :
    ((MagazineImpl.new true none).len ≤
      ((MagazineImpl.new true none).put 5).2.len) ∧
    (((MagazineImpl.new false none).get).2.len ≤ (MagazineImpl.new false none).len) := by
  have h := c7_polarity_monotonicity_amended
    (MagazineImpl.new true none) (MagazineImpl.new false none) 5 4
    (by decide) (by decide) (by decide)
  exact ⟨h.1, h.2.1⟩

/-! ## Class registry (`class.rs`) -/

/-- Largest `u32` value (`u32::MAX`). -/
def U32_MAX : Nat := 4294967295

/-- `Class::new` (`class.rs` lines 134-160), projected onto the registry
bookkeeping: with `numRegistered` classes already in the global `CLASSES`
vector, the new id is `classes.len() + 1` (an error past `u32::MAX`) and
the new `ClassInfo` is pushed, so the registry length becomes
`numRegistered + 1`.  Returns the id and the new length. -/
def class_new (numRegistered : Nat) : Except String (Nat × Nat) :=
  let next_id := numRegistered + 1
  if next_id > U32_MAX then .error "too many slitter allocation classes"
  else .ok (next_id, numRegistered + 1)

/-- `Class::from_id` (`class.rs` lines 171-178): the id is a
`NonZeroU32` (hence ≥ 1); the lookup succeeds iff
`id.get() as usize <= CLASSES.len()`, returning the same id wrapped in
`Class`. -/
def class_from_id (numRegistered : Nat) (id : Nat) : Option Nat :=
  if id ≤ numRegistered then some id else none

/-- `class::max_id` (`class.rs` lines 115-118): the registry length. -/
def class_max_id (numRegistered : Nat) : Nat := numRegistered

/-- CLAIM C5 -- Class registry determinism: a successful `Class::new`
with `n` registered classes assigns id `n + 1`, which equals the number
of registered classes after insertion; id 0 is never assigned;
`Class::from_id` recovers every registered class (ids are `NonZeroU32`,
hence ≥ 1) and returns `None` exactly when the id exceeds the number of
registered classes. -/
theorem c5_class_registry_determinism (n i n' : Nat)
    (h : class_new n = .ok (i, n')) :
    i = n' ∧ n' = n + 1 ∧ i ≠ 0 ∧
    (∀ id, 1 ≤ id → id ≤ n' → class_from_id n' id = some id) ∧
    (∀ id, 1 ≤ id → (class_from_id n' id = none ↔ n' < id)) := by
  unfold class_new at h
  by_cases hc : n + 1 > U32_MAX
  · simp [hc] at h
  · simp only [hc, if_neg, ite_false, reduceIte] at h
    obtain ⟨hi, hn⟩ : i = n + 1 ∧ n' = n + 1 := by
      cases h
      exact ⟨rfl, rfl⟩
    subst hi
    subst hn
    refine ⟨rfl, rfl, by omega, ?_, ?_⟩
    · intro id h1 h2
      unfold class_from_id
      simp [h2]
    · intro id h1
      unfold class_from_id
      by_cases h2 : id ≤ n + 1
      · simp [h2]
      · simp [h2]
        omega

/-- Witness for C5: registering the first class yields id 1. -/
theorem c5_class_registry_determinism_witness :
    class_new 0 = .ok (1, 1) ∧ (1 : Nat) ≠ 0 ∧ class_from_id 1 1 = some 1 := by
  have h := c5_class_registry_determinism 0 1 1 rfl
  exact ⟨rfl, h.2.2.1, h.2.2.2.1 1 (by decide) (by decide)⟩

/-! ## Press (`press.rs`, the chunk-based press in this tree) -/

namespace Press

/-- `DATA_ALIGNMENT` in `press.rs` (`2 << 20` = 2 MiB). -/
def DATA_ALIGNMENT : Nat := 2 <<< 20

/-- `GUARD_PAGE_SIZE` in `press.rs`. -/
def GUARD_PAGE_SIZE : Nat := 4096

/-- `METADATA_PAGE_SIZE` in `press.rs`. -/
def METADATA_PAGE_SIZE : Nat := 4096

/-- Model of `ChunkMetadata` (`press.rs` lines 52-62): class id
(`Option<NonZeroU32>`, ids ≥ 1), element capacity, bump counter, chunk
start address. -/
structure ChunkMetadata where
  class_id : Option Nat
  bump_limit : Nat
  bump_ptr : Nat
  chunk_begin : Nat
deriving Repr, DecidableEq

/-- `ChunkMetadata::from_allocation_address` (`press.rs` lines 113-119):
`base = address - address % DATA_ALIGNMENT`;
`meta = base - GUARD_PAGE_SIZE - METADATA_PAGE_SIZE`.  (In every use the
base is at least `DATA_ALIGNMENT`, so the `Nat` subtraction is exact.) -/
def ChunkMetadata.from_allocation_address (address : Nat) : Nat :=
  let base := address - address % DATA_ALIGNMENT
  base - GUARD_PAGE_SIZE - METADATA_PAGE_SIZE

/-- `press::check_allocation` (`press.rs` lines 337-347) over the
committed metadata pages, modelled as an association list from metadata
addresses to `ChunkMetadata` records.  An address whose derived metadata
pointer does not fall in any committed metadata page is rejected (the
source rejects a null pointer; any other stray pointer is undefined
behaviour there). -/
def check_allocation (metas : List (Nat × ChunkMetadata))
    (classId : Nat) (address : Nat) : Bool :=
  match metas.lookup (ChunkMetadata.from_allocation_address address) with
  | none => false
  | some m => m.class_id == some classId

/-- Model of `std::alloc::Layout`: a size and an alignment (the Rust
type guarantees the alignment is a power of two ≥ 1). -/
structure Layout where
  size : Nat
  align : Nat
deriving Repr, DecidableEq

/-- `Layout::pad_to_align`: round the size up to a multiple of the
alignment. -/
def Layout.pad_to_align (l : Layout) : Layout :=
  { l with size := l.align * ((l.size + l.align - 1) / l.align) }

/-- `Press::new` (`press.rs` lines 350-363): pad the layout to its
alignment, then fail iff the padded size exceeds `DATA_ALIGNMENT / 2`;
otherwise succeed with the padded layout. -/
def pressNew (layout : Layout) : Except String Layout :=
  let padded := layout.pad_to_align
  if padded.size > DATA_ALIGNMENT / 2 then
    .error "Class elements too large (after alignment)"
  else
    .ok padded

end Press

/-! ## Mill (`mill.rs`) -/

namespace Mill

/-- `DATA_ALIGNMENT` in `mill.rs` (production: 1 GiB). -/
def DATA_ALIGNMENT : Nat := 1 <<< 30

/-- `GUARD_PAGE_SIZE` in `mill.rs` (production: 2 MiB). -/
def GUARD_PAGE_SIZE : Nat := 2 <<< 20

/-- `METADATA_PAGE_SIZE` in `mill.rs` (production: 2 MiB). -/
def METADATA_PAGE_SIZE : Nat := 2 <<< 20

/-- `SPAN_ALIGNMENT` in `mill.rs` (production: 16 KiB). -/
def SPAN_ALIGNMENT : Nat := 16 <<< 10

/-- `MAX_SPAN_SIZE = DATA_ALIGNMENT / 16` (`mill.rs` lines 77-83). -/
def MAX_SPAN_SIZE : Nat := DATA_ALIGNMENT / 16

/-- `DEFAULT_DESIRED_SPAN_SIZE = (1 << 20) - SPAN_ALIGNMENT`. -/
def DEFAULT_DESIRED_SPAN_SIZE : Nat := (1 <<< 20) - SPAN_ALIGNMENT

/-- Size in bytes of `SpanMetadata` (`repr(C)` on a 64-bit target:
`Option<NonZeroU32>` at 0, `u32` at 4, `AtomicUsize` at 8, `usize` at
16; total 24). -/
def SPAN_METADATA_SIZE : Nat := 24

/-- `SpanMetadata::from_allocation_address` (`mill.rs` lines 214-221):
`base = address - address % DATA_ALIGNMENT`; `index = (address - base) /
SPAN_ALIGNMENT`; `meta = base - GUARD_PAGE_SIZE - METADATA_PAGE_SIZE`;
result is `meta` advanced by `index` `SpanMetadata` records. -/
def SpanMetadata.from_allocation_address (address : Nat) : Nat :=
  let base := address - address % DATA_ALIGNMENT
  let index := (address - base) / SPAN_ALIGNMENT
  let meta := base - GUARD_PAGE_SIZE - METADATA_PAGE_SIZE
  meta + index * SPAN_METADATA_SIZE

end Mill

/-- The address formula of claim C4, written out from the spec's words
("Address→metadata"): `(addr − addr mod DATA_ALIGNMENT) − guard −
metadata_page + (addr mod DATA_ALIGNMENT)/SPAN_ALIGNMENT ×
sizeof(SpanMetadata)`, with the production mill constants.  Stated for
comparison with the source's two address-to-metadata functions. -/
def spec_metadata_address (addr : Nat) : Nat :=
  (addr - addr % Mill.DATA_ALIGNMENT) - Mill.GUARD_PAGE_SIZE - Mill.METADATA_PAGE_SIZE
    + (addr % Mill.DATA_ALIGNMENT) / Mill.SPAN_ALIGNMENT * Mill.SPAN_METADATA_SIZE

/-- CLAIM C4 (counterexample) -- at the data address `2^30 + 2^14` the
metadata address actually used by the release validator
(`press::check_allocation`, which calls
`ChunkMetadata::from_allocation_address`) differs from the claim's
formula; placing a metadata record with the matching class id at the
claim's formula address makes `check_allocation` fail anyway. -/
theorem c4_counterexample :
    Press.ChunkMetadata.from_allocation_address (1 <<< 30 + 16 <<< 10)
      ≠ spec_metadata_address (1 <<< 30 + 16 <<< 10) ∧
    Press.check_allocation
      [(spec_metadata_address (1 <<< 30 + 16 <<< 10),
        ({ class_id := some 1, bump_limit := 128, bump_ptr := 0,
           chunk_begin := 1 <<< 30 } : Press.ChunkMetadata))]
      1 (1 <<< 30 + 16 <<< 10) = false := by
  constructor
  · decide
  · decide

/-- CLAIM C4 (amended) -- Address-to-metadata arithmetic, as corrected:
the metadata record used to validate a release lives at
`(addr − addr mod DATA_ALIGNMENT) − GUARD_PAGE_SIZE −
METADATA_PAGE_SIZE` with the press constants (2 MiB data alignment,
4 KiB guard and metadata pages) and no span-index term, and
`check_allocation(class, addr)` succeeds iff the record at that address
exists and has `class_id` equal to the class's id.  The claim's formula
(with the span-index term) is computed by
`SpanMetadata::from_allocation_address` in `mill.rs`, which is not used
by the release validator in this tree. -/
theorem c4_metadata_arithmetic_amended :
    (∀ addr : Nat,
      Mill.SpanMetadata.from_allocation_address addr = spec_metadata_address addr) ∧
    (∀ (metas : List (Nat × Press.ChunkMetadata)) (classId addr : Nat),
      Press.check_allocation metas classId addr = true ↔
        ∃ m, metas.lookup ((addr - addr % Press.DATA_ALIGNMENT)
            - Press.GUARD_PAGE_SIZE - Press.METADATA_PAGE_SIZE) = some m ∧
          m.class_id = some classId) := by
  constructor
  · intro addr
    unfold Mill.SpanMetadata.from_allocation_address spec_metadata_address
    have h : addr - (addr - addr % Mill.DATA_ALIGNMENT) = addr % Mill.DATA_ALIGNMENT :=
      Nat.sub_sub_self (Nat.mod_le addr Mill.DATA_ALIGNMENT)
    simp only [h]
  · intro metas classId addr
    unfold Press.check_allocation Press.ChunkMetadata.from_allocation_address
    cases hl : metas.lookup ((addr - addr % Press.DATA_ALIGNMENT)
        - Press.GUARD_PAGE_SIZE - Press.METADATA_PAGE_SIZE) with
    | none => simp [hl]
    | some m => simp [hl]

/-- CLAIM C8 (counterexample) -- the padded layout of size 2 MiB and
alignment 8 satisfies both constraints the claim states (alignment ≤ one
page, padded size ≤ `MAX_SPAN_SIZE / 2` = 32 MiB), yet `Press::new`
rejects it: the check actually performed is against
`DATA_ALIGNMENT / 2` = 1 MiB of the 2 MiB chunk press. -/
theorem c8_counterexample :
    Press.pressNew { size := 2097152, align := 8 }
      = .error "Class elements too large (after alignment)" ∧
    (8 : Nat) ≤ 4096 ∧
    (Press.Layout.pad_to_align { size := 2097152, align := 8 }).size
      ≤ Mill.MAX_SPAN_SIZE / 2 := by
  refine ⟨rfl, by decide, by decide⟩

/-- CLAIM C8 (amended) -- Class-creation constraints, as corrected:
`Press::new` pads the layout to its alignment and returns an error
exactly when the padded size exceeds `DATA_ALIGNMENT / 2` (1 MiB for the
2 MiB chunks of this press); it checks nothing about the alignment, and
on success returns the padded layout. -/
theorem c8_class_creation_constraints_amended (l : Press.Layout) :
    (Press.pressNew l = .ok l.pad_to_align ↔
      l.pad_to_align.size ≤ Press.DATA_ALIGNMENT / 2) ∧
    (Press.pressNew l = .error "Class elements too large (after alignment)" ↔
      Press.DATA_ALIGNMENT / 2 < l.pad_to_align.size) := by
  unfold Press.pressNew
  by_cases h : (Press.Layout.pad_to_align l).size > Press.DATA_ALIGNMENT / 2
  · rw [if_pos h]
    refine ⟨⟨fun hx => Except.noConfusion hx, fun hx => absurd hx (by omega)⟩,
            ⟨fun _ => by omega, fun _ => rfl⟩⟩
  · rw [if_neg h]
    refine ⟨⟨fun _ => by omega, fun _ => rfl⟩,
            ⟨fun hx => Except.noConfusion hx, fun hx => absurd hx (by omega)⟩⟩

/-! ## Thread-local cache (`cache.rs`) -/

/-- Fuel-based computation of `usize::next_power_of_two` (as called via
`checked_next_power_of_two` in `Cache::ensure_per_class_length`): climb
powers of two from 1 until at least `n`; `n` steps of fuel always
suffice.  The checked overflow failure cannot occur under the
`min_length < usize::MAX / 2` contract and is not modelled. -/
def nextPow2Aux (n : Nat) : Nat → Nat → Nat
  | 0, power => power
  | fuel + 1, power => if power < n then nextPow2Aux n fuel (power * 2) else power

/-- Smallest power of two at least `n` (Rust `next_power_of_two`; `1`
for `n ≤ 1`). -/
def nextPow2 (n : Nat) : Nat := nextPow2Aux n n 1

theorem nextPow2Aux_ge (n : Nat) :
    ∀ fuel power, 0 < power → n ≤ 2 ^ fuel * power → n ≤ nextPow2Aux n fuel power := by
  intro fuel
  induction fuel with
  | zero =>
    intro power h0 h
    simpa [nextPow2Aux] using h
  | succ f ih =>
    intro power h0 h
    simp only [nextPow2Aux]
    by_cases hlt : power < n
    · rw [if_pos hlt]
      apply ih (power * 2) (by omega)
      calc n ≤ 2 ^ (f + 1) * power := h
        _ = 2 ^ f * (power * 2) := by ring
    · rw [if_neg hlt]
      omega

theorem le_nextPow2 (n : Nat) : n ≤ nextPow2 n := by
  apply nextPow2Aux_ge n n 1 (by omega)
  have := Nat.lt_two_pow n
  omega

/-- Model of the `Magazines` pair in `cache.rs` (lines 41-48): the
cache allocates from `alloc` (a pop magazine) and releases into
`release` (a push magazine). -/
structure Magazines where
  alloc : MagazineImpl false
  release : MagazineImpl true
deriving Repr, DecidableEq

/-- `Default for Magazines`: both magazines are storage-less
(`MagazineImpl::new(None)`), which makes the alloc (pop) magazine empty
and the release (push) magazine full, so both operations take the slow
path. -/
def Magazines.defaultMags : Magazines :=
  { alloc := MagazineImpl.new false none, release := MagazineImpl.new true none }

/-- `INITIAL_CACHE_SIZE` (`cache.rs` line 39). -/
def INITIAL_CACHE_SIZE : Nat := 4

/-- Model of `Cache` (`cache.rs` lines 74-88): the `per_class` magazine
array, the parallel `per_class_info` vector (an entry records the class
id wired in by `grow`, `none` for the dummy index 0), and the array
ownership flag. -/
structure Cache where
  per_class : List Magazines
  per_class_info : List (Option Nat)
  per_class_is_owned : Bool

/-- `Cache::new` (`cache.rs` lines 256-281, without the `c_fast_path`
borrow): `INITIAL_CACHE_SIZE` default magazine pairs, no info entries,
owned array. -/
def Cache.init : Cache :=
  { per_class := List.replicate INITIAL_CACHE_SIZE Magazines.defaultMags,
    per_class_info := [],
    per_class_is_owned := true }

/-- `Cache::ensure_per_class_length` (`cache.rs` lines 340-366): if the
magazine array is already at least `min_length` long do nothing;
otherwise build a default-initialised array of
`min_length.next_power_of_two()` slots, swap the old contents into its
prefix, and own the new array. -/
def Cache.ensure_per_class_length (c : Cache) (min_length : Nat) : Cache :=
  if min_length ≤ c.per_class.length then c
  else
    { c with
      per_class := c.per_class ++
        List.replicate (nextPow2 min_length - c.per_class.length) Magazines.defaultMags,
      per_class_is_owned := true }

/-- `Cache::grow` (`cache.rs` lines 374-403): with `max_id` the class
registry length at entry, return if `per_class_info` already covers it;
otherwise extend the magazine array to at least `max_id + 1` slots and
push one `Info` entry per id up to `max_id` (index 0 is the dummy with
no info; index `i ≥ 1` is wired to the class with id `i`, which
`Class::from_id` resolves because `i ≤ max_id`). -/
def Cache.grow (c : Cache) (max_id : Nat) : Cache :=
  if max_id < c.per_class_info.length then c
  else
    { c.ensure_per_class_length (max_id + 1) with
      per_class_info := (c.ensure_per_class_length (max_id + 1)).per_class_info ++
        (List.range' (c.ensure_per_class_length (max_id + 1)).per_class_info.length
            (max_id + 1 - (c.ensure_per_class_length (max_id + 1)).per_class_info.length)).map
          (fun i => if i = 0 then none else some i) }

/-- One mutation of a live `Cache`.  `grow` and
`ensure_per_class_length` are the source functions; `mutate`
over-approximates every other cache operation (`allocate_slow`,
`release_slow` and the `ClassInfo` calls they delegate to), which only
ever replace the magazine pair at an index below
`per_class_info.len()` — both paths call `grow` first and then index
with a registered class id. -/
inductive CacheStep : Cache → Cache → Prop
  | grow (c : Cache) (max_id : Nat) : CacheStep c (c.grow max_id)
  | ensure (c : Cache) (min_length : Nat) :
      CacheStep c (c.ensure_per_class_length min_length)
  | mutate (c : Cache) (i : Nat) (mags : Magazines)
      (h : i < c.per_class_info.length) :
      CacheStep c { c with per_class := c.per_class.set i mags }

/-- States reachable from a fresh thread cache. -/
def CacheReachable (c : Cache) : Prop :=
  Relation.ReflTransGen CacheStep Cache.init c

/-- The claimed invariant (checked by `Cache::check_rep_or_err`,
`cache.rs` lines 288-330): the magazine array is at least as long as the
info array, and every trailing magazine slot is in the default state —
empty alloc (pop) magazine, full release (push) magazine. -/
def Cache.inv (c : Cache) : Prop :=
  c.per_class_info.length ≤ c.per_class.length ∧
  ∀ i, i < c.per_class.length → c.per_class_info.length ≤ i →
    ((c.per_class.getD i Magazines.defaultMags).alloc.is_empty = true ∧
     (c.per_class.getD i Magazines.defaultMags).release.is_full = true)

theorem defaultMags_trailing :
    Magazines.defaultMags.alloc.is_empty = true ∧
    Magazines.defaultMags.release.is_full = true := by
  decide

theorem cache_init_inv : Cache.init.inv := by
  unfold Cache.inv Cache.init
  refine ⟨by simp, ?_⟩
  decide

theorem cache_ensure_inv (c : Cache) (n : Nat) (h : c.inv) :
    (c.ensure_per_class_length n).inv := by
  unfold Cache.ensure_per_class_length
  by_cases hle : n ≤ c.per_class.length
  · rw [if_pos hle]
    exact h
  · rw [if_neg hle]
    obtain ⟨h1, h2⟩ := h
    constructor
    · simp only [List.length_append, List.length_replicate]
      omega
    · intro i hi hinfo
      simp only [List.length_append, List.length_replicate] at hi
      by_cases hlt : i < c.per_class.length
      · have hget : (c.per_class ++
            List.replicate (nextPow2 n - c.per_class.length) Magazines.defaultMags).getD i
              Magazines.defaultMags = c.per_class.getD i Magazines.defaultMags := by
          simp only [List.getD_eq_getElem?_getD]
          rw [List.getElem?_append, if_pos hlt]
        simp only [hget]
        exact h2 i hlt hinfo
      · have hget : (c.per_class ++
            List.replicate (nextPow2 n - c.per_class.length) Magazines.defaultMags).getD i
              Magazines.defaultMags = Magazines.defaultMags := by
          simp only [List.getD_eq_getElem?_getD]
          rw [List.getElem?_append, if_neg hlt, List.getElem?_replicate]
          split
          · rfl
          · rfl
        simp only [hget]
        exact defaultMags_trailing

theorem cache_ensure_lengths (c : Cache) (n : Nat) :
    c.per_class.length ≤ (c.ensure_per_class_length n).per_class.length ∧
    (c.ensure_per_class_length n).per_class_info = c.per_class_info ∧
    n ≤ (c.ensure_per_class_length n).per_class.length := by
  unfold Cache.ensure_per_class_length
  by_cases hle : n ≤ c.per_class.length
  · rw [if_pos hle]
    exact ⟨le_rfl, rfl, hle⟩
  · rw [if_neg hle]
    have := le_nextPow2 n
    refine ⟨?_, rfl, ?_⟩
    · simp
    · simp only [List.length_append, List.length_replicate]
      omega

theorem cache_grow_inv (c : Cache) (m : Nat) (h : c.inv) : (c.grow m).inv := by
  unfold Cache.grow
  by_cases hlt : m < c.per_class_info.length
  · rw [if_pos hlt]
    exact h
  · rw [if_neg hlt]
    obtain ⟨hmono, hinfo, hlen⟩ := cache_ensure_lengths c (m + 1)
    obtain ⟨h1, h2⟩ := cache_ensure_inv c (m + 1) h
    constructor
    · simp only [List.length_append, List.length_map, List.length_range', hinfo]
      omega
    · intro i hi hbig
      simp only [List.length_append, List.length_map, List.length_range', hinfo] at hbig
      exact h2 i hi (by rw [hinfo]; omega)

theorem cache_grow_lengths (c : Cache) (m : Nat) :
    c.per_class.length ≤ (c.grow m).per_class.length ∧
    c.per_class_info.length ≤ (c.grow m).per_class_info.length := by
  unfold Cache.grow
  by_cases hlt : m < c.per_class_info.length
  · rw [if_pos hlt]
    exact ⟨le_rfl, le_rfl⟩
  · rw [if_neg hlt]
    obtain ⟨hmono, hinfo, hlen⟩ := cache_ensure_lengths c (m + 1)
    constructor
    · exact hmono
    · simp only [List.length_append, hinfo]
      omega

theorem cache_mutate_inv (c : Cache) (i : Nat) (mags : Magazines)
    (hi : i < c.per_class_info.length) (h : c.inv) :
    ({ c with per_class := c.per_class.set i mags } : Cache).inv := by
  obtain ⟨h1, h2⟩ := h
  constructor
  · simpa using h1
  · intro j hj hbig
    simp only [List.length_set] at hj
    have hbig' : c.per_class_info.length ≤ j := hbig
    have hne : i ≠ j := by omega
    have hget : (c.per_class.set i mags).getD j Magazines.defaultMags
        = c.per_class.getD j Magazines.defaultMags := by
      simp only [List.getD_eq_getElem?_getD]
      rw [List.getElem?_set_ne hne]
    simp only [hget]
    exact h2 j hj hbig'

theorem cache_step_inv (c c' : Cache) (hs : CacheStep c c') (h : c.inv) : c'.inv := by
  cases hs with
  | grow m => exact cache_grow_inv c m h
  | ensure n => exact cache_ensure_inv c n h
  | mutate i mags hi => exact cache_mutate_inv c i mags hi h

/-- CLAIM C10 -- Cache array invariant: in every reachable state of a
thread's `Cache`, the `per_class` magazine array is at least as long as
`per_class_info`, and every trailing magazine slot (index at or beyond
`per_class_info.len()`) has an empty alloc (pop) magazine and a full
release (push) magazine; the invariant is preserved by every step
(`ensure_per_class_length`, `grow`, and slot mutations at registered
indices), and no step shrinks either array. -/
theorem c10_cache_array_invariant :
    (∀ c : Cache, CacheReachable c → c.inv) ∧
    (∀ c c' : Cache, CacheStep c c' →
      c.per_class.length ≤ c'.per_class.length ∧
      c.per_class_info.length ≤ c'.per_class_info.length) := by
  constructor
  · intro c hreach
    induction hreach with
    | refl => exact cache_init_inv
    | tail _ hstep ih => exact cache_step_inv _ _ hstep ih
  · intro c c' hs
    cases hs with
    | grow m => exact cache_grow_lengths c m
    | ensure n =>
      obtain ⟨h1, h2, _⟩ := cache_ensure_lengths c n
      exact ⟨h1, by rw [h2]⟩
    | mutate i mags hi => simp

/-- Witness for C10: the fresh cache state and a concrete `grow` step. -/
theorem c10_cache_array_invariant_witness :
    Cache.init.inv ∧
    Cache.init.per_class.length ≤ (Cache.init.grow 2).per_class.length := by
  constructor
  · exact c10_cache_array_invariant.1 Cache.init Relation.ReflTransGen.refl
  · exact (c10_cache_array_invariant.2 Cache.init (Cache.init.grow 2)
      (CacheStep.grow Cache.init 2)).1

/-! ## Span milling (`mill.rs`, `Mill::get_span` / `Mill::allocate_span`) -/

namespace Mill

/-- Model of `Chunk` (`mill.rs` lines 172-180): `spans` is the address
where the chunk's spans start, `span_count` the chunk size in spans,
`next_free_span` the bump pointer in span units.  The metadata array is
identified by span indices into it. -/
structure Chunk where
  spans : Nat
  span_count : Nat
  next_free_span : Nat
deriving Repr, DecidableEq

/-- Model of `MilledRange` (`mill.rs` lines 151-164): `metaIdx` is the
index of the first `SpanMetadata` entry for the span in the chunk's
metadata array; `trail` is the list of indices of the remaining entries
covering the span beyond the first. -/
structure MilledRange where
  metaIdx : Nat
  trail : List Nat
  data : Nat
  data_size : Nat
deriving Repr, DecidableEq

/-- `Mill::allocate_span` (`mill.rs` lines 589-619): serve
`allocated = min(remaining, desired)` spans at the bump pointer, or
`None` (leaving the chunk untouched) when the chunk is exhausted or
`remaining < min`.  The Rust slice `chunk_meta[index + 1..index +
allocated]` panics when `allocated = 0` (reachable only with `min =
desired = 0`); the model yields an empty trail there, which only weakens
what can be concluded about that call. -/
def allocate_span (chunk : Chunk) (min desired : Nat) :
    Option MilledRange × Chunk :=
  if chunk.next_free_span ≥ chunk.span_count then (none, chunk)
  else
    let remaining := chunk.span_count - chunk.next_free_span
    if remaining < min then (none, chunk)
    else
      let allocated := Nat.min remaining desired
      let index := chunk.next_free_span
      (some { metaIdx := index,
              trail := List.range' (index + 1) (allocated - 1),
              data := chunk.spans + index * SPAN_ALIGNMENT,
              data_size := allocated * SPAN_ALIGNMENT },
       { chunk with next_free_span := index + allocated })

/-- `Mill::allocate_chunk` (`mill.rs` lines 558-568) under a mapper that
succeeds: a fresh chunk whose spans start at `spansAddr`, cut into
`DATA_ALIGNMENT / SPAN_ALIGNMENT` spans, bump pointer 0. -/
def allocate_chunk (spansAddr : Nat) : Chunk :=
  { spans := spansAddr,
    span_count := DATA_ALIGNMENT / SPAN_ALIGNMENT,
    next_free_span := 0 }

/-- Rust's `desired_size.unwrap_or(DEFAULT_DESIRED_SPAN_SIZE).clamp(min_size,
MAX_SPAN_SIZE)` from `Mill::get_span` (`clamp(lo, hi)` is defined when
`lo <= hi`, which the source asserts via `min_size <= MAX_SPAN_SIZE`). -/
def clamped_desired (min_size : Nat) (desired_size : Option Nat) : Nat :=
  Nat.min MAX_SPAN_SIZE
    (Nat.max min_size (desired_size.getD DEFAULT_DESIRED_SPAN_SIZE))

/-- The span-count rounding in `Mill::get_span`:
`s / SPAN_ALIGNMENT + ((s % SPAN_ALIGNMENT) > 0) as usize`. -/
def span_ceil (s : Nat) : Nat :=
  s / SPAN_ALIGNMENT + (if s % SPAN_ALIGNMENT > 0 then 1 else 0)

/-- The body of `Mill::get_span` after the current chunk has been
materialised: try `allocate_span` on it; on failure install a fresh
chunk and retry.  `idx` counts mapper chunk allocations and `chunkAddr`
gives the data address of the n-th fresh chunk.  The final
`.expect("New chunk must have a span")` panic is modelled as a `none`
result (unreachable for `min_size ≤ MAX_SPAN_SIZE`). -/
def get_span_with (chunkAddr : Nat → Nat) (chunk : Chunk) (idx : Nat)
    (mn ds : Nat) : Option MilledRange × (Option Chunk × Nat) :=
  match allocate_span chunk mn ds with
  | (some r, c') => (some r, (some c', idx))
  | (none, _) =>
    match allocate_span (allocate_chunk (chunkAddr idx)) mn ds with
    | (some r, c') => (some r, (some c', idx + 1))
    | (none, c') => (none, (some c', idx + 1))

/-- `Mill::get_span` (`mill.rs` lines 633-670) under an always-succeeding
mapper (a mapper failure surfaces as `Err` and is excluded by the
claims, which condition on `Ok`): materialise the current chunk if the
mill has none yet, then serve through `get_span_with`. -/
def get_span (chunkAddr : Nat → Nat) (st : Option Chunk × Nat)
    (min_size : Nat) (desired_size : Option Nat) :
    Option MilledRange × (Option Chunk × Nat) :=
  match st.1 with
  | some c =>
    get_span_with chunkAddr c st.2 (span_ceil min_size)
      (span_ceil (clamped_desired min_size desired_size))
  | none =>
    get_span_with chunkAddr (allocate_chunk (chunkAddr st.2)) (st.2 + 1)
      (span_ceil min_size)
      (span_ceil (clamped_desired min_size desired_size))

theorem allocate_span_none_unchanged (chunk : Chunk) (mn ds : Nat)
    (h : (allocate_span chunk mn ds).1 = none) :
    (allocate_span chunk mn ds).2 = chunk := by
  unfold allocate_span at h ⊢
  by_cases h1 : chunk.next_free_span ≥ chunk.span_count
  · rw [if_pos h1]
  · rw [if_neg h1] at h ⊢
    by_cases h2 : chunk.span_count - chunk.next_free_span < mn
    · rw [if_pos h2]
    · rw [if_neg h2] at h
      simp at h

theorem allocate_span_some_spec (chunk : Chunk) (mn ds : Nat)
    (r : MilledRange) (c' : Chunk) (hmd : mn ≤ ds)
    (h : allocate_span chunk mn ds = (some r, c')) :
    r.metaIdx = chunk.next_free_span ∧
    mn * SPAN_ALIGNMENT ≤ r.data_size ∧
    r.data_size / SPAN_ALIGNMENT
      = Nat.min (chunk.span_count - chunk.next_free_span) ds ∧
    r.trail = List.range' (r.metaIdx + 1) (r.data_size / SPAN_ALIGNMENT - 1) ∧
    c' = { chunk with
           next_free_span := chunk.next_free_span + r.data_size / SPAN_ALIGNMENT } := by
  unfold allocate_span at h
  by_cases h1 : chunk.next_free_span ≥ chunk.span_count
  · rw [if_pos h1] at h
    cases h
  · rw [if_neg h1] at h
    by_cases h2 : chunk.span_count - chunk.next_free_span < mn
    · rw [if_pos h2] at h
      cases h
    · rw [if_neg h2] at h
      simp only [Prod.mk.injEq, Option.some.injEq] at h
      obtain ⟨hr, hc⟩ := h
      subst hr
      subst hc
      have hspan : SPAN_ALIGNMENT = 16384 := rfl
      have hdiv : Nat.min (chunk.span_count - chunk.next_free_span) ds * SPAN_ALIGNMENT
          / SPAN_ALIGNMENT = Nat.min (chunk.span_count - chunk.next_free_span) ds := by
        rw [hspan]
        omega
      refine ⟨rfl, ?_, by simpa using hdiv, by simp [hdiv], by simp [hdiv]⟩
      simp only
      have hle : mn ≤ Nat.min (chunk.span_count - chunk.next_free_span) ds :=
        Nat.le_min.mpr ⟨by omega, hmd⟩
      calc mn * SPAN_ALIGNMENT
      _ ≤ Nat.min (chunk.span_count - chunk.next_free_span) ds * SPAN_ALIGNMENT :=
        Nat.mul_le_mul_right _ hle
      _ = _ := rfl

theorem span_ceil_lower (s : Nat) : s ≤ span_ceil s * SPAN_ALIGNMENT := by
  unfold span_ceil
  have hspan : SPAN_ALIGNMENT = 16384 := rfl
  rw [hspan]
  by_cases hz : s % 16384 > 0
  · rw [if_pos hz]
    omega
  · rw [if_neg hz]
    omega

theorem span_ceil_mono (s t : Nat) (h : s ≤ t) : span_ceil s ≤ span_ceil t := by
  unfold span_ceil
  have hspan : SPAN_ALIGNMENT = 16384 := rfl
  rw [hspan]
  by_cases hs : s % 16384 > 0
  · rw [if_pos hs]
    by_cases ht : t % 16384 > 0
    · rw [if_pos ht]
      omega
    · rw [if_neg ht]
      omega
  · rw [if_neg hs]
    by_cases ht : t % 16384 > 0
    · rw [if_pos ht]
      omega
    · rw [if_neg ht]
      omega

theorem clamped_desired_ge (min_size : Nat) (desired_size : Option Nat)
    (hmin : min_size ≤ MAX_SPAN_SIZE) :
    min_size ≤ clamped_desired min_size desired_size :=
  Nat.le_min.mpr ⟨hmin, Nat.le_max_left _ _⟩

theorem get_span_with_spec (chunkAddr : Nat → Nat) (chunk : Chunk) (idx mn ds : Nat)
    (r : MilledRange) (st' : Option Chunk × Nat)
    (hmd : mn ≤ ds) (hsmall : mn ≤ 65536)
    (h : get_span_with chunkAddr chunk idx mn ds = (some r, st')) :
    mn * SPAN_ALIGNMENT ≤ r.data_size ∧
    r.trail = List.range' (r.metaIdx + 1) (r.data_size / SPAN_ALIGNMENT - 1) ∧
    (∃ c', st'.1 = some c' ∧
      c'.next_free_span = r.metaIdx + r.data_size / SPAN_ALIGNMENT) ∧
    (r.metaIdx = chunk.next_free_span ∨ r.metaIdx = 0) := by
  unfold get_span_with at h
  rcases hcase : allocate_span chunk mn ds with ⟨ores, c1⟩
  cases ores with
  | some r0 =>
    rw [hcase] at h
    simp only [Prod.mk.injEq, Option.some.injEq] at h
    obtain ⟨hr0, hst'⟩ := h
    rw [hr0] at hcase
    obtain ⟨hidx, hsz, hdiv, htrail, hc⟩ :=
      allocate_span_some_spec chunk mn ds r c1 hmd hcase
    refine ⟨hsz, htrail, ⟨c1, by rw [← hst'], ?_⟩, Or.inl hidx⟩
    rw [hc]
    simp only
    omega
  | none =>
    rw [hcase] at h
    rcases hcase2 : allocate_span (allocate_chunk (chunkAddr idx)) mn ds
      with ⟨ores2, c2⟩
    cases ores2 with
    | some r0 =>
      rw [hcase2] at h
      simp only [Prod.mk.injEq, Option.some.injEq] at h
      obtain ⟨hr0, hst'⟩ := h
      rw [hr0] at hcase2
      obtain ⟨hidx, hsz, hdiv, htrail, hc⟩ :=
        allocate_span_some_spec _ mn ds r c2 hmd hcase2
      have hidx0 : r.metaIdx = 0 := by
        rw [hidx]
        rfl
      refine ⟨hsz, htrail, ⟨c2, by rw [← hst'], ?_⟩, Or.inr hidx0⟩
      rw [hc]
      simp only
      rw [hidx0]
      have h0 : (allocate_chunk (chunkAddr idx)).next_free_span = 0 := rfl
      omega
    | none =>
      exfalso
      unfold allocate_span at hcase2
      have hcnt : (allocate_chunk (chunkAddr idx)).span_count = 65536 := rfl
      have hnfs : (allocate_chunk (chunkAddr idx)).next_free_span = 0 := rfl
      rw [if_neg (by omega), if_neg (by omega)] at hcase2
      cases hcase2

end Mill

/-- CLAIM C9 -- Span acquisition postcondition: for every `get_span`
call with `min_size ≤ MAX_SPAN_SIZE` that returns `Ok`, the returned
`MilledRange` has `data_size ≥ min_size`, its `trail` consists of
exactly `data_size / SPAN_ALIGNMENT - 1` metadata entries — the
consecutive metadata indices after the first span's entry — and the
serving chunk's `next_free_span` bump pointer advances by exactly
`data_size / SPAN_ALIGNMENT` (from the old chunk's pointer when it
served the request, from 0 when a fresh chunk did); and `allocate_span`
leaves the chunk untouched when it returns `None`. -/
theorem c9_span_acquisition (chunkAddr : Nat → Nat)
    (st : Option Mill.Chunk × Nat) (min_size : Nat)
    (desired_size : Option Nat) (r : Mill.MilledRange)
    (st' : Option Mill.Chunk × Nat)
    (hmin : min_size ≤ Mill.MAX_SPAN_SIZE)
    (h : Mill.get_span chunkAddr st min_size desired_size = (some r, st')) :
    min_size ≤ r.data_size ∧
    r.trail.length = r.data_size / Mill.SPAN_ALIGNMENT - 1 ∧
    r.trail = List.range' (r.metaIdx + 1) (r.data_size / Mill.SPAN_ALIGNMENT - 1) ∧
    (∃ c', st'.1 = some c' ∧
      c'.next_free_span = r.metaIdx + r.data_size / Mill.SPAN_ALIGNMENT) ∧
    (∀ c0, st.1 = some c0 → (r.metaIdx = c0.next_free_span ∨ r.metaIdx = 0)) ∧
    (st.1 = none → r.metaIdx = 0) ∧
    (∀ (chunk : Mill.Chunk) (mn ds : Nat),
      (Mill.allocate_span chunk mn ds).1 = none →
      (Mill.allocate_span chunk mn ds).2 = chunk) := by
  have hmd : Mill.span_ceil min_size
      ≤ Mill.span_ceil (Mill.clamped_desired min_size desired_size) :=
    Mill.span_ceil_mono _ _ (Mill.clamped_desired_ge _ _ hmin)
  have hsmall : Mill.span_ceil min_size ≤ 65536 := by
    have h1 : Mill.span_ceil min_size ≤ Mill.span_ceil Mill.MAX_SPAN_SIZE :=
      Mill.span_ceil_mono _ _ hmin
    have h2 : Mill.span_ceil Mill.MAX_SPAN_SIZE = 4096 := rfl
    omega
  have hlow : min_size ≤ Mill.span_ceil min_size * Mill.SPAN_ALIGNMENT :=
    Mill.span_ceil_lower min_size
  unfold Mill.get_span at h
  cases hst : st.1 with
  | some c0 =>
    rw [hst] at h
    obtain ⟨hsz, htrail, hnext, hidx⟩ :=
      Mill.get_span_with_spec chunkAddr c0 st.2 _ _ r st' hmd hsmall h
    refine ⟨by omega, ?_, htrail, hnext, ?_, ?_,
      Mill.allocate_span_none_unchanged⟩
    · rw [htrail]
      simp
    · intro c hc
      cases hc
      exact hidx
    · intro hc
      cases hc
  | none =>
    rw [hst] at h
    obtain ⟨hsz, htrail, hnext, hidx⟩ :=
      Mill.get_span_with_spec chunkAddr (Mill.allocate_chunk (chunkAddr st.2))
        (st.2 + 1) _ _ r st' hmd hsmall h
    have hidx0 : r.metaIdx = 0 := by
      rcases hidx with h1 | h1
      · rw [h1]
        rfl
      · exact h1
    refine ⟨by omega, ?_, htrail, hnext, ?_, fun _ => hidx0,
      Mill.allocate_span_none_unchanged⟩
    · rw [htrail]
      simp
    · intro c hc
      cases hc

/-! ## Sequential whole-system model

The coherent allocation pipeline of this tree: the chunk-based press of
`press.rs`, the magazines and per-class depot of `magazine.rs`
(`ClassInfo::refill_magazine` / `clear_magazine` / `release_magazine`),
and the thread cache's `allocate_slow` / `release_slow` of `cache.rs`
(without the local one-slot magazine cache, whose implementation is not
in this tree).  One thread; the mapper always succeeds and, per its
contract, hands out zero-filled memory.

A magazine of `magazine.rs` (`num_allocated` plus the populated prefix
of its `allocations` array) is modelled as the list of its populated
entries, top of stack first: `get` pops the head, `put` pushes a head
when below `MAGAZINE_SIZE`.  The two depot stacks (`full_mags`,
`partial_mags`) are lists of magazines, most recently pushed first. -/

namespace Sys

/-- An allocation class: its `NonZeroU32` id, padded object size, and
zero-init flag. -/
structure ClassDesc where
  id : Nat
  size : Nat
  zero_init : Bool
deriving Repr, DecidableEq

/-- Per-class state: the thread cache's two magazines, the depot
stacks, and trace bookkeeping.  `callers` is the set of addresses
currently held by callers; `issued` records every address the press
ever returned for this class and `allocLog` every address `allocate`
ever returned to a caller (history variables). -/
structure ClassState where
  allocMag : List Nat
  relMag : List Nat
  fullMags : List (List Nat)
  partMags : List (List Nat)
  callers : List Nat
  allocCount : Nat
  releaseCount : Nat
  issued : List Nat
  allocLog : List Nat
deriving Repr, DecidableEq

def ClassState.initial : ClassState :=
  { allocMag := [], relMag := [], fullMags := [], partMags := [],
    callers := [], allocCount := 0, releaseCount := 0, issued := [], allocLog := [] }

/-- Sequential system state: the committed chunk metadata records
(keyed by metadata address), the per-class-id press bump pointer
(`Press.bump`; `none` is the null pointer), the number of chunks
obtained from the mapper, the per-class-id magazine/depot state, and
the data memory (one byte per address; the mapper hands out zero-filled
memory, and the allocator in this tree never writes into object
memory). -/
structure SysState where
  metas : List (Nat × Press.ChunkMetadata)
  bump : Nat → Option Nat
  chunkCount : Nat
  perClass : Nat → ClassState
  mem : Nat → Nat

def SysState.initial : SysState :=
  { metas := [], bump := fun _ => none, chunkCount := 0,
    perClass := fun _ => ClassState.initial, mem := fun _ => 0 }

/-- Pointwise function update. -/
def updateFn {α : Type} (f : Nat → α) (k : Nat) (v : α) : Nat → α :=
  fun i => if i = k then v else f i

/-- Replaces the per-class state of class id `cid`. -/
def updateClass (st : SysState) (cid : Nat) (cs : ClassState) : SysState :=
  { st with perClass := updateFn st.perClass cid cs }

/-- Updates the metadata record stored at address `k` (the keys of
`metas` are distinct in every reachable state). -/
def setMeta (metas : List (Nat × Press.ChunkMetadata)) (k : Nat)
    (m : Press.ChunkMetadata) : List (Nat × Press.ChunkMetadata) :=
  metas.map (fun p => if p.1 = k then (k, m) else p)

/-- `Press::try_allocate_from_chunk` (`press.rs` lines 367-376):
`bump_ptr.fetch_add(1)` (the counter advances even past the limit);
if the pre-increment value is below `bump_limit`, the object at
`chunk_begin + allocated_id * layout.size()` is handed out. -/
def tryAllocateFromChunk (size : Nat) (m : Press.ChunkMetadata) :
    Option Nat × Press.ChunkMetadata :=
  if m.bump_ptr ≥ m.bump_limit then (none, { m with bump_ptr := m.bump_ptr + 1 })
  else (some (m.chunk_begin + m.bump_ptr * size), { m with bump_ptr := m.bump_ptr + 1 })

/-- `Press::try_replace_chunk` (`press.rs` lines 379-417) under a
succeeding mapper: reserve a fresh region, carve out a chunk whose data
starts at `chunkData st.chunkCount` (the oracle for mapper placement;
its page of metadata is zero-filled), write `class_id`, `bump_limit =
DATA_ALIGNMENT / layout.size()`, `bump_ptr = 0`, `chunk_begin`, and
publish the new bump pointer.  The `bump != expected` early returns
cannot fire in a single-threaded trace. -/
def tryReplaceChunk (chunkData : Nat → Nat) (c : ClassDesc) (st : SysState) :
    SysState :=
  { st with
    metas :=
      (chunkData st.chunkCount - Press.GUARD_PAGE_SIZE - Press.METADATA_PAGE_SIZE,
       { class_id := some c.id, bump_limit := Press.DATA_ALIGNMENT / c.size,
         bump_ptr := 0, chunk_begin := chunkData st.chunkCount }) :: st.metas,
    bump := updateFn st.bump c.id
      (some (chunkData st.chunkCount - Press.GUARD_PAGE_SIZE - Press.METADATA_PAGE_SIZE)),
    chunkCount := st.chunkCount + 1 }

/-- `Press::try_allocate_once` (`press.rs` lines 425-438): load the
bump pointer; allocate from the current chunk if there is one and it is
not exhausted; otherwise install a replacement chunk.  (A bump pointer
that refers to no committed metadata cannot happen; the fallback
mirrors the null-pointer branch.) -/
def tryAllocateOnce (chunkData : Nat → Nat) (c : ClassDesc) (st : SysState) :
    Option Nat × SysState :=
  match st.bump c.id with
  | some k =>
    match st.metas.lookup k with
    | some m =>
      match tryAllocateFromChunk c.size m with
      | (some a, m') => (some a, { st with metas := setMeta st.metas k m' })
      | (none, m') =>
        (none, tryReplaceChunk chunkData c { st with metas := setMeta st.metas k m' })
    | none => (none, tryReplaceChunk chunkData c st)
  | none => (none, tryReplaceChunk chunkData c st)

/-- `Press::allocate_one_object` (`press.rs` lines 440-448): retry loop,
which under a succeeding mapper terminates in at most two rounds (a
freshly installed chunk has `bump_limit ≥ 2`). -/
def pressAllocate (chunkData : Nat → Nat) (c : ClassDesc) (st : SysState) :
    Option Nat × SysState :=
  match tryAllocateOnce chunkData c st with
  | (some a, st') => (some a, st')
  | (none, st') => tryAllocateOnce chunkData c st'

/-- `pressAllocate` plus the `issued` history variable. -/
def pressAllocateLog (chunkData : Nat → Nat) (c : ClassDesc) (st : SysState) :
    Option Nat × SysState :=
  match pressAllocate chunkData c st with
  | (some a, st') =>
    (some a,
      updateClass st' c.id
        { st'.perClass c.id with issued := a :: (st'.perClass c.id).issued })
  | (none, st') => (none, st')

/-- `Magazine::get` (`magazine.rs` lines 167-174) on the
populated-prefix list. -/
def magGet : List Nat → Option Nat × List Nat
  | [] => (none, [])
  | a :: rest => (some a, rest)

/-- `Magazine::put` (`magazine.rs` lines 186-195): returns the element
back when the magazine is full. -/
def magPut (m : List Nat) (v : Nat) : Option Nat × List Nat :=
  if MAGAZINE_SIZE ≤ m.length then (some v, m) else (none, v :: m)

/-- `Magazine::populate` (`magazine.rs` lines 201-214) with the press
as the allocator: fill the magazine up to `MAGAZINE_SIZE`, stopping on
allocation failure.  `MAGAZINE_SIZE` rounds of fuel always suffice. -/
def magPopulate (chunkData : Nat → Nat) (c : ClassDesc) :
    Nat → List Nat → SysState → List Nat × SysState
  | 0, m, st => (m, st)
  | fuel + 1, m, st =>
    if m.length < MAGAZINE_SIZE then
      match pressAllocateLog chunkData c st with
      | (some a, st') => magPopulate chunkData c fuel (a :: m) st'
      | (none, st') => (m, st')
    else (m, st)

/-- `ClassInfo::release_magazine` (`magazine.rs` lines 399-409): an
empty magazine goes back to the rack (its empty storage carries no
addresses and is dropped from this model), a full one onto `full_mags`,
any other onto `partial_mags`. -/
def releaseMagazine (cs : ClassState) (m : List Nat) : ClassState :=
  if m.length = 0 then cs
  else if m.length = MAGAZINE_SIZE then { cs with fullMags := m :: cs.fullMags }
  else { cs with partMags := m :: cs.partMags }

/-- `ClassInfo::refill_magazine` (`magazine.rs` lines 349-365) acting  on
the calling cache's alloc magazine: pop a depot magazine
(`partial_mags` first, then `full_mags`), take its top for the return
value, swap it into the cache slot and release the old (empty) magazine;
on a depot miss, allocate one standalone object from the press and
populate the magazine from the press. -/
def refillMagazine (chunkData : Nat → Nat) (c : ClassDesc) (st : SysState) :
    Option Nat × SysState :=
  match (st.perClass c.id).partMags, (st.perClass c.id).fullMags with
  | newMag :: restPart, _ =>
    (some ((magGet newMag).1.getD 0),
     updateClass st c.id
       (releaseMagazine
         { st.perClass c.id with partMags := restPart, allocMag := (magGet newMag).2 }
         (st.perClass c.id).allocMag))
  | [], newMag :: restFull =>
    (some ((magGet newMag).1.getD 0),
     updateClass st c.id
       (releaseMagazine
         { st.perClass c.id with fullMags := restFull, allocMag := (magGet newMag).2 }
         (st.perClass c.id).allocMag))
  | [], [] =>
    match pressAllocateLog chunkData c st with
    | (none, st') => (none, st')
    | (some a, st') =>
      match magPopulate chunkData c MAGAZINE_SIZE (st'.perClass c.id).allocMag st' with
      | (mag', st'') =>
        (some a,
          updateClass st'' c.id { st''.perClass c.id with allocMag := mag' })

/-- `Cache::allocate_slow` (`cache.rs` lines 415-432) plus the caller
bookkeeping of the trace semantics (`callers`, `allocCount`,
`allocLog`): pop the cache's alloc magazine, refilling it through the
class info on a miss. -/
def sysAllocate (chunkData : Nat → Nat) (c : ClassDesc) (st : SysState) :
    Option Nat × SysState :=
  match (st.perClass c.id).allocMag with
  | a :: rest =>
    (some a,
      updateClass st c.id
        { st.perClass c.id with
          allocMag := rest,
          callers := a :: (st.perClass c.id).callers,
          allocCount := (st.perClass c.id).allocCount + 1,
          allocLog := a :: (st.perClass c.id).allocLog })
  | [] =>
    match refillMagazine chunkData c st with
    | (none, st') => (none, st')
    | (some a, st') =>
      (some a,
        updateClass st' c.id
          { st'.perClass c.id with
            callers := a :: (st'.perClass c.id).callers,
            allocCount := (st'.perClass c.id).allocCount + 1,
            allocLog := a :: (st'.perClass c.id).allocLog })

/-- `Cache::release_slow` (`cache.rs` lines 467-488) together with
`ClassInfo::clear_magazine` (`magazine.rs` lines 381-393), plus the
caller bookkeeping: push into the cache's release magazine; on
overflow, obtain a non-full magazine (`partial_mags` first, else a
fresh empty one from the rack), push the spilled object into it, swap
it into the cache slot and release the old full magazine.  The guard
`a ∈ callers` is the trace-validity condition: the source's contract
checks (`check_allocation` and the debug maps) reject frees of
addresses the caller does not hold, and such frees are undefined in
release builds. -/
def sysRelease (c : ClassDesc) (a : Nat) (st : SysState) : SysState :=
  if a ∈ (st.perClass c.id).callers then
    match magPut (st.perClass c.id).relMag a with
    | (none, m') =>
      updateClass st c.id
        { st.perClass c.id with
          relMag := m',
          callers := (st.perClass c.id).callers.erase a,
          releaseCount := (st.perClass c.id).releaseCount + 1 }
    | (some spill, _) =>
      match (st.perClass c.id).partMags with
      | newMag :: restPart =>
        updateClass st c.id
          (releaseMagazine
            { st.perClass c.id with
              partMags := restPart,
              relMag := (magPut newMag spill).2,
              callers := (st.perClass c.id).callers.erase a,
              releaseCount := (st.perClass c.id).releaseCount + 1 }
            (st.perClass c.id).relMag)
      | [] =>
        updateClass st c.id
          (releaseMagazine
            { st.perClass c.id with
              relMag := (magPut [] spill).2,
              callers := (st.perClass c.id).callers.erase a,
              releaseCount := (st.perClass c.id).releaseCount + 1 }
            (st.perClass c.id).relMag)
  else st

/-- A trace event: an `allocate(class)` call, a `release(class, a)`
call, or a caller writing byte `v` at an address it holds. -/
inductive Event where
  | alloc (cid : Nat)
  | free (cid : Nat) (a : Nat)
  | write (cid : Nat) (a : Nat) (v : Nat)
deriving Repr, DecidableEq

def findClass (classes : List ClassDesc) (cid : Nat) : Option ClassDesc :=
  classes.find? (fun c => c.id == cid)

def stepEvent (chunkData : Nat → Nat) (classes : List ClassDesc)
    (st : SysState) : Event → SysState
  | .alloc cid =>
    match findClass classes cid with
    | some c => (sysAllocate chunkData c st).2
    | none => st
  | .free cid a =>
    match findClass classes cid with
    | some c => sysRelease c a st
    | none => st
  | .write cid a v =>
    match findClass classes cid with
    | some c =>
      if a ∈ (st.perClass c.id).callers then
        { st with mem := updateFn st.mem a v }
      else st
    | none => st

/-- Runs a trace of events from the fresh state. -/
def runTrace (chunkData : Nat → Nat) (classes : List ClassDesc)
    (events : List Event) : SysState :=
  events.foldl (stepEvent chunkData classes) SysState.initial

/-- Side conditions on the mapper placement oracle: every chunk's data
region is `DATA_ALIGNMENT`-aligned, non-null (hence at least
`DATA_ALIGNMENT`), and fresh address space (distinct regions). -/
def ChunkOracleOk (chunkData : Nat → Nat) : Prop :=
  (∀ n, chunkData n % Press.DATA_ALIGNMENT = 0) ∧
  (∀ n, Press.DATA_ALIGNMENT ≤ chunkData n) ∧
  Function.Injective chunkData

/-- Side conditions established at class registration: non-zero ids
(`NonZeroU32`), distinct ids, and the `Press::new` size bound with a
non-zero padded size (`ClassConfig::from_c` raises the size to at least
1 before padding). -/
def ClassesOk (classes : List ClassDesc) : Prop :=
  (∀ c ∈ classes, 1 ≤ c.id ∧ 0 < c.size ∧ c.size ≤ Press.DATA_ALIGNMENT / 2) ∧
  classes.Pairwise (fun c c' => c.id ≠ c'.id)

/-- The addresses tracked for a class, in the order: caller-held, cache
alloc magazine, cache release magazine, depot full magazines, depot
partial magazines. -/
def containers (cs : ClassState) : List Nat :=
  cs.callers ++ cs.allocMag ++ cs.relMag ++ cs.fullMags.flatten ++ cs.partMags.flatten

end Sys

/-- Witness for C9 at the first span request of a fresh mill. -/
theorem c9_span_acquisition_witness :
    (16384 : Nat) ≤ Mill.MAX_SPAN_SIZE ∧
    (16384 : Nat) ≤ (Mill.MilledRange.mk 0 (List.range' 1 62) (2 ^ 30) 1032192).data_size := by
  have h := c9_span_acquisition (fun _ => 2 ^ 30) (none, 0) 16384 none
    (Mill.MilledRange.mk 0 (List.range' 1 62) (2 ^ 30) 1032192)
    (some (Mill.Chunk.mk (2 ^ 30) 65536 63), 1) (by decide) (by decide)
  exact ⟨by decide, h.1⟩

namespace Sys

/-! ### Helper lemmas for the trace invariants -/

theorem updateFn_same {α : Type} (f : Nat → α) (k : Nat) (v : α) :
    updateFn f k v k = v := by
  simp [updateFn]

theorem updateFn_other {α : Type} (f : Nat → α) (k : Nat) (v : α) (i : Nat)
    (h : i ≠ k) : updateFn f k v i = f i := by
  simp [updateFn, h]

theorem lookup_of_mem_nodup (l : List (Nat × Press.ChunkMetadata)) (k : Nat)
    (m : Press.ChunkMetadata) (hmem : (k, m) ∈ l)
    (hnd : (l.map Prod.fst).Nodup) : l.lookup k = some m := by
  induction l with
  | nil => cases hmem
  | cons p t ih =>
    rw [List.map_cons, List.nodup_cons] at hnd
    rcases List.mem_cons.mp hmem with h | h
    · rw [← h]
      simp [List.lookup]
    · have hk : (k == p.1) = false := by
        rw [beq_eq_false_iff_ne]
        intro he
        exact hnd.1 (he ▸ List.mem_map_of_mem Prod.fst h)
      obtain ⟨p1, p2⟩ := p
      show List.lookup k ((p1, p2) :: t) = some m
      rw [List.lookup_cons]
      rw [hk]
      exact ih h hnd.2

theorem mem_key_unique (l : List (Nat × Press.ChunkMetadata)) (k : Nat)
    (m1 m2 : Press.ChunkMetadata) (hnd : (l.map Prod.fst).Nodup)
    (h1 : (k, m1) ∈ l) (h2 : (k, m2) ∈ l) : m1 = m2 := by
  have e1 := lookup_of_mem_nodup l k m1 h1 hnd
  have e2 := lookup_of_mem_nodup l k m2 h2 hnd
  rw [e1] at e2
  cases e2
  rfl

theorem setMeta_keys (l : List (Nat × Press.ChunkMetadata)) (k : Nat)
    (m : Press.ChunkMetadata) : (setMeta l k m).map Prod.fst = l.map Prod.fst := by
  induction l with
  | nil => rfl
  | cons p t ih =>
    simp only [setMeta, List.map_cons] at ih ⊢
    by_cases h : p.1 = k
    · rw [if_pos h]
      simp [ih, h]
    · rw [if_neg h]
      simp [ih]

theorem mem_setMeta_of_ne (l : List (Nat × Press.ChunkMetadata)) (k : Nat)
    (m : Press.ChunkMetadata) (p : Nat × Press.ChunkMetadata)
    (hp : p ∈ l) (hne : p.1 ≠ k) : p ∈ setMeta l k m := by
  unfold setMeta
  have : p = (fun q => if q.1 = k then (k, m) else q) p := by
    simp [hne]
  rw [this]
  exact List.mem_map_of_mem _ hp

theorem mem_setMeta_self (l : List (Nat × Press.ChunkMetadata)) (k : Nat)
    (m old : Press.ChunkMetadata) (h : (k, old) ∈ l) : (k, m) ∈ setMeta l k m := by
  unfold setMeta
  refine List.mem_map.mpr ⟨(k, old), h, ?_⟩
  simp

theorem setMeta_mem_cases (l : List (Nat × Press.ChunkMetadata)) (k : Nat)
    (m : Press.ChunkMetadata) (q : Nat × Press.ChunkMetadata)
    (hq : q ∈ setMeta l k m) :
    ∃ p ∈ l, (p.1 = k ∧ q = (k, m)) ∨ (p.1 ≠ k ∧ q = p) := by
  unfold setMeta at hq
  obtain ⟨p, hp, he⟩ := List.mem_map.mp hq
  refine ⟨p, hp, ?_⟩
  by_cases h : p.1 = k
  · left
    rw [if_pos h] at he
    exact ⟨h, he.symm⟩
  · right
    rw [if_neg h] at he
    exact ⟨h, he.symm⟩

/-! ### Address geometry of the 2 MiB chunks -/

theorem mul_lt_DA (size i : Nat) (_hs : 0 < size)
    (hi : i < Press.DATA_ALIGNMENT / size) :
    i * size + size ≤ Press.DATA_ALIGNMENT := by
  have h1 : (i + 1) * size ≤ (Press.DATA_ALIGNMENT / size) * size :=
    Nat.mul_le_mul_right _ hi
  have h2 := Nat.div_mul_le_self Press.DATA_ALIGNMENT size
  calc i * size + size = (i + 1) * size := by ring
  _ ≤ (Press.DATA_ALIGNMENT / size) * size := h1
  _ ≤ Press.DATA_ALIGNMENT := h2

theorem addr_decompose (b x : Nat) (hb : b % Press.DATA_ALIGNMENT = 0)
    (hx : x < Press.DATA_ALIGNMENT) :
    (b + x) % Press.DATA_ALIGNMENT = x ∧
    (b + x) - (b + x) % Press.DATA_ALIGNMENT = b := by
  have hDA : Press.DATA_ALIGNMENT = 2097152 := rfl
  rw [hDA] at hb hx ⊢
  omega

/-- The release validator's derived metadata address of an object inside
a chunk is the chunk's metadata key. -/
theorem issued_key (b i size : Nat) (hb : b % Press.DATA_ALIGNMENT = 0)
    (hs : 0 < size) (hi : i < Press.DATA_ALIGNMENT / size) :
    Press.ChunkMetadata.from_allocation_address (b + i * size)
      = b - Press.GUARD_PAGE_SIZE - Press.METADATA_PAGE_SIZE := by
  unfold Press.ChunkMetadata.from_allocation_address
  have hx : i * size < Press.DATA_ALIGNMENT := by
    have := mul_lt_DA size i hs hi
    omega
  obtain ⟨h1, h2⟩ := addr_decompose b (i * size) hb hx
  simp only [h1]
  rw [show b + i * size - i * size = b from by omega]

theorem addr_ne_of_chunk_ne (b b' i i' size size' : Nat)
    (hb : b % Press.DATA_ALIGNMENT = 0) (hb' : b' % Press.DATA_ALIGNMENT = 0)
    (hne : b ≠ b') (hx : i * size < Press.DATA_ALIGNMENT)
    (hx' : i' * size' < Press.DATA_ALIGNMENT) :
    b + i * size ≠ b' + i' * size' := by
  intro he
  obtain ⟨_, h2⟩ := addr_decompose b (i * size) hb hx
  obtain ⟨_, h2'⟩ := addr_decompose b' (i' * size') hb' hx'
  rw [he] at h2
  rw [h2] at h2'
  exact hne h2'

theorem key_inj (b b' : Nat) (hbge : Press.DATA_ALIGNMENT ≤ b)
    (hbge' : Press.DATA_ALIGNMENT ≤ b') (hne : b ≠ b') :
    b - Press.GUARD_PAGE_SIZE - Press.METADATA_PAGE_SIZE
      ≠ b' - Press.GUARD_PAGE_SIZE - Press.METADATA_PAGE_SIZE := by
  have hDA : Press.DATA_ALIGNMENT = 2097152 := rfl
  have hG : Press.GUARD_PAGE_SIZE = 4096 := rfl
  have hM : Press.METADATA_PAGE_SIZE = 4096 := rfl
  rw [hDA] at hbge hbge'
  rw [hG, hM]
  omega

/-! ### Stability of committed metadata -/

/-- Every record of `l` persists in `l'` at the same key with the same
class id, limit and chunk start, and a bump pointer at least as large. -/
def metasStable (l l' : List (Nat × Press.ChunkMetadata)) : Prop :=
  ∀ p ∈ l, ∃ m', (p.1, m') ∈ l' ∧ m'.class_id = p.2.class_id ∧
    m'.bump_limit = p.2.bump_limit ∧ m'.chunk_begin = p.2.chunk_begin ∧
    p.2.bump_ptr ≤ m'.bump_ptr

theorem metasStable_refl (l : List (Nat × Press.ChunkMetadata)) :
    metasStable l l := by
  intro p hp
  exact ⟨p.2, by simpa using hp, rfl, rfl, rfl, le_rfl⟩

theorem metasStable_trans (l1 l2 l3 : List (Nat × Press.ChunkMetadata))
    (h12 : metasStable l1 l2) (h23 : metasStable l2 l3) : metasStable l1 l3 := by
  intro p hp
  obtain ⟨m2, hm2, e1, e2, e3, e4⟩ := h12 p hp
  obtain ⟨m3, hm3, f1, f2, f3, f4⟩ := h23 (p.1, m2) hm2
  exact ⟨m3, hm3, f1.trans e1, f2.trans e2, f3.trans e3, e4.trans f4⟩

theorem mem_of_lookup (l : List (Nat × Press.ChunkMetadata)) (k : Nat)
    (m : Press.ChunkMetadata) (h : l.lookup k = some m) : (k, m) ∈ l := by
  obtain ⟨l1, l2, he, _⟩ := List.lookup_eq_some_iff.mp h
  rw [he]
  exact List.mem_append_right _ (List.mem_cons_self _ _)

/-! ### The system invariant -/

/-- A committed chunk record is well-formed: placed by the mapper at
the `n`-th reservation, keyed by its own metadata address, and
describing a registered class. -/
def MetaEntryOk (classes : List ClassDesc) (chunkData : Nat → Nat)
    (count : Nat) (p : Nat × Press.ChunkMetadata) : Prop :=
  (∃ n < count, p.2.chunk_begin = chunkData n) ∧
  p.1 = p.2.chunk_begin - Press.GUARD_PAGE_SIZE - Press.METADATA_PAGE_SIZE ∧
  ∃ c ∈ classes, p.2.class_id = some c.id ∧
    p.2.bump_limit = Press.DATA_ALIGNMENT / c.size

/-- Press invariant: distinct metadata keys, well-formed records, and
bump pointers that refer to a committed record of the right class. -/
def MetaInv (classes : List ClassDesc) (chunkData : Nat → Nat)
    (st : SysState) : Prop :=
  (st.metas.map Prod.fst).Nodup ∧
  (∀ p ∈ st.metas, MetaEntryOk classes chunkData st.chunkCount p) ∧
  (∀ cid k, st.bump cid = some k → ∃ m, (k, m) ∈ st.metas ∧ m.class_id = some cid)

/-- Address `a` was carved for class `c` out of a committed chunk:
below that chunk's limit and below its bump pointer. -/
def IssuedEntry (c : ClassDesc) (metas : List (Nat × Press.ChunkMetadata))
    (a : Nat) : Prop :=
  ∃ p ∈ metas, p.2.class_id = some c.id ∧
    ∃ i, i < p.2.bump_limit ∧ i < p.2.bump_ptr ∧ a = p.2.chunk_begin + i * c.size

theorem IssuedEntry_mono (c : ClassDesc)
    (l l' : List (Nat × Press.ChunkMetadata)) (h : metasStable l l') (a : Nat)
    (ha : IssuedEntry c l a) : IssuedEntry c l' a := by
  obtain ⟨p, hp, hcl, i, h1, h2, h3⟩ := ha
  obtain ⟨m', hm', e1, e2, e3, e4⟩ := h p hp
  refine ⟨(p.1, m'), hm', e1.trans hcl, i, ?_, ?_, ?_⟩
  · show i < m'.bump_limit
    omega
  · show i < m'.bump_ptr
    omega
  · show a = m'.chunk_begin + i * c.size
    rw [e3]
    exact h3

theorem class_unique (classes : List ClassDesc) (hcls : ClassesOk classes)
    (c c' : ClassDesc) (hc : c ∈ classes) (hc' : c' ∈ classes)
    (h : c.id = c'.id) : c = c' := by
  by_contra hne
  exact (hcls.2.forall (fun a b hab => fun he => hab he.symm) hc hc' hne) h

/-- The chunk that currently serves class `c` exists and is not
exhausted. -/
def ReadyChunk (c : ClassDesc) (st : SysState) : Prop :=
  ∃ k m, st.bump c.id = some k ∧ st.metas.lookup k = some m ∧
    m.class_id = some c.id ∧ m.bump_limit = Press.DATA_ALIGNMENT / c.size ∧
    m.bump_ptr < m.bump_limit

/-! ### Press step lemmas -/

theorem setMeta_inc_spec (classes : List ClassDesc) (chunkData : Nat → Nat)
    (st : SysState) (k : Nat) (m : Press.ChunkMetadata)
    (hM : MetaInv classes chunkData st) (hmem : (k, m) ∈ st.metas) :
    MetaInv classes chunkData
      { st with metas := setMeta st.metas k { m with bump_ptr := m.bump_ptr + 1 } } ∧
    metasStable st.metas (setMeta st.metas k { m with bump_ptr := m.bump_ptr + 1 }) := by
  obtain ⟨hnd, hent, hbump⟩ := hM
  set m' : Press.ChunkMetadata := { m with bump_ptr := m.bump_ptr + 1 } with hm'
  have hstable : metasStable st.metas (setMeta st.metas k m') := by
    intro p hp
    by_cases he : p.1 = k
    · have hpm : p.2 = m := by
        have : (k, p.2) ∈ st.metas := by
          rw [← he]
          simpa using hp
        exact mem_key_unique st.metas k p.2 m hnd this hmem
      refine ⟨m', ?_, ?_, ?_, ?_, ?_⟩
      · rw [he]
        exact mem_setMeta_self st.metas k m' m hmem
      · rw [hm', hpm]
      · rw [hm', hpm]
      · rw [hm', hpm]
      · rw [hpm, hm']
        simp only
        omega
    · exact ⟨p.2, by simpa using mem_setMeta_of_ne st.metas k m' p hp he,
        rfl, rfl, rfl, le_rfl⟩
  refine ⟨⟨?_, ?_, ?_⟩, hstable⟩
  · rw [setMeta_keys]
    exact hnd
  · intro p hp
    obtain ⟨q, hq, hcase⟩ := setMeta_mem_cases st.metas k m' p hp
    rcases hcase with ⟨hqk, hpe⟩ | ⟨hqk, hpe⟩
    · subst hpe
      have hmOk := hent (k, m) hmem
      obtain ⟨⟨n, hn, hbeg⟩, hkey, c', hc', hcid, hlim⟩ := hmOk
      exact ⟨⟨n, hn, hbeg⟩, hkey, c', hc', hcid, hlim⟩
    · rw [hpe]
      exact hent q hq
  · intro cid k0 hb
    obtain ⟨m0, hm0, hcid⟩ := hbump cid k0 hb
    by_cases he : k0 = k
    · subst he
      have : m0 = m := mem_key_unique st.metas k0 m0 m hnd hm0 hmem
      subst this
      exact ⟨m', mem_setMeta_self st.metas k0 m' m0 hm0, hcid⟩
    · exact ⟨m0, mem_setMeta_of_ne st.metas k m' (k0, m0) hm0 he, hcid⟩

theorem tryReplaceChunk_bump (chunkData : Nat → Nat) (c : ClassDesc)
    (st : SysState) :
    (tryReplaceChunk chunkData c st).bump
      = updateFn st.bump c.id
          (some (chunkData st.chunkCount - Press.GUARD_PAGE_SIZE
            - Press.METADATA_PAGE_SIZE)) := rfl

theorem tryReplaceChunk_spec (classes : List ClassDesc) (chunkData : Nat → Nat)
    (c : ClassDesc) (st : SysState)
    (ho : ChunkOracleOk chunkData) (hcls : ClassesOk classes) (hc : c ∈ classes)
    (hM : MetaInv classes chunkData st) :
    MetaInv classes chunkData (tryReplaceChunk chunkData c st) ∧
    metasStable st.metas (tryReplaceChunk chunkData c st).metas ∧
    (tryReplaceChunk chunkData c st).perClass = st.perClass ∧
    (tryReplaceChunk chunkData c st).mem = st.mem ∧
    ReadyChunk c (tryReplaceChunk chunkData c st) ∧
    st.chunkCount ≤ (tryReplaceChunk chunkData c st).chunkCount := by
  obtain ⟨hnd, hent, hbump⟩ := hM
  obtain ⟨halign, hge, hinj⟩ := ho
  obtain ⟨hvalid, _⟩ := hcls
  obtain ⟨hid1, hsz0, hszle⟩ := hvalid c hc
  have hDAval : Press.DATA_ALIGNMENT = 2097152 := rfl
  have hkeyfresh : ∀ p ∈ st.metas,
      p.1 ≠ chunkData st.chunkCount - Press.GUARD_PAGE_SIZE - Press.METADATA_PAGE_SIZE := by
    intro p hp
    obtain ⟨⟨n, hn, hbeg⟩, hkey, _⟩ := hent p hp
    rw [hkey, hbeg]
    apply key_inj
    · exact hge n
    · exact hge st.chunkCount
    · intro he
      exact absurd (hinj he) (by omega)
  constructor
  · refine ⟨?_, ?_, ?_⟩
    · show ((_ :: st.metas).map Prod.fst).Nodup
      rw [List.map_cons, List.nodup_cons]
      refine ⟨?_, hnd⟩
      intro hmem
      obtain ⟨p, hp, hpe⟩ := List.mem_map.mp hmem
      exact hkeyfresh p hp hpe
    · intro p hp
      rcases List.mem_cons.mp hp with h | h
      · subst h
        refine ⟨⟨st.chunkCount, ?_, rfl⟩, rfl, c, hc, rfl, rfl⟩
        show st.chunkCount < st.chunkCount + 1
        omega
      · obtain ⟨⟨n, hn, hbeg⟩, hkey, c', hc', hcid, hlim⟩ := hent p h
        refine ⟨⟨n, ?_, hbeg⟩, hkey, c', hc', hcid, hlim⟩
        show n < st.chunkCount + 1
        omega
    · intro cid k0 hb
      rw [tryReplaceChunk_bump] at hb
      by_cases he : cid = c.id
      · subst he
        rw [updateFn_same] at hb
        refine ⟨{ class_id := some c.id,
                  bump_limit := Press.DATA_ALIGNMENT / c.size,
                  bump_ptr := 0,
                  chunk_begin := chunkData st.chunkCount }, ?_, rfl⟩
        rw [← Option.some.inj hb]
        exact List.mem_cons_self _ _
      · rw [updateFn_other _ _ _ _ he] at hb
        obtain ⟨m0, hm0, hcid⟩ := hbump cid k0 hb
        exact ⟨m0, List.mem_cons_of_mem _ hm0, hcid⟩
  refine ⟨?_, rfl, rfl, ?_, Nat.le_succ _⟩
  · intro p hp
    exact ⟨p.2, List.mem_cons_of_mem _ (by simpa using hp), rfl, rfl, rfl, le_rfl⟩
  · refine ⟨chunkData st.chunkCount - Press.GUARD_PAGE_SIZE - Press.METADATA_PAGE_SIZE,
      { class_id := some c.id, bump_limit := Press.DATA_ALIGNMENT / c.size,
        bump_ptr := 0, chunk_begin := chunkData st.chunkCount },
      by rw [tryReplaceChunk_bump, updateFn_same], ?_, rfl, rfl, ?_⟩
    · exact List.lookup_cons_self
    · show 0 < Press.DATA_ALIGNMENT / c.size
      refine Nat.div_pos ?_ hsz0
      rw [hDAval] at hszle ⊢
      omega


/-! ### Press allocation specs -/

/-- `a` is the next object of the chunk currently serving class `c` in
state `st` (the object `try_allocate_from_chunk` would hand out). -/
def FreshIssue (c : ClassDesc) (st : SysState) (a : Nat) : Prop :=
  ∃ k m, st.metas.lookup k = some m ∧ m.class_id = some c.id ∧
    m.bump_ptr < m.bump_limit ∧ a = m.chunk_begin + m.bump_ptr * c.size

theorem updateClass_metas (st : SysState) (cid : Nat) (cs : ClassState) :
    (updateClass st cid cs).metas = st.metas := rfl

theorem updateClass_perClass (st : SysState) (cid : Nat) (cs : ClassState) :
    (updateClass st cid cs).perClass = updateFn st.perClass cid cs := rfl

theorem MetaInv_ext (classes : List ClassDesc) (chunkData : Nat → Nat)
    (st st' : SysState) (hm : st'.metas = st.metas) (hb : st'.bump = st.bump)
    (hcc : st'.chunkCount = st.chunkCount) (h : MetaInv classes chunkData st) :
    MetaInv classes chunkData st' := by
  unfold MetaInv at h ⊢
  rw [hm, hb, hcc]
  exact h

theorem tryAllocateFromChunk_eq_none (size : Nat) (m : Press.ChunkMetadata)
    (h : m.bump_limit ≤ m.bump_ptr) :
    tryAllocateFromChunk size m = (none, { m with bump_ptr := m.bump_ptr + 1 }) := by
  unfold tryAllocateFromChunk
  rw [if_pos h]

theorem tryAllocateFromChunk_eq_some (size : Nat) (m : Press.ChunkMetadata)
    (h : m.bump_ptr < m.bump_limit) :
    tryAllocateFromChunk size m
      = (some (m.chunk_begin + m.bump_ptr * size),
         { m with bump_ptr := m.bump_ptr + 1 }) := by
  unfold tryAllocateFromChunk
  rw [if_neg (Nat.not_le.mpr h)]

/-- The next object of the serving chunk was never issued before: inside
its own chunk it lies at or past the bump pointer, and other committed
chunks occupy disjoint data regions. -/
theorem freshIssue_ne_issued (classes : List ClassDesc) (chunkData : Nat → Nat)
    (c : ClassDesc) (st : SysState)
    (ho : ChunkOracleOk chunkData) (hcls : ClassesOk classes) (hc : c ∈ classes)
    (hM : MetaInv classes chunkData st) (a : Nat) (hf : FreshIssue c st a)
    (x : Nat) (hx : IssuedEntry c st.metas x) : a ≠ x := by
  obtain ⟨hnd, hent, _⟩ := hM
  obtain ⟨halign, hge, hinj⟩ := ho
  obtain ⟨k, m, hlk, hcl, hlt, ha⟩ := hf
  obtain ⟨p, hp, hpcl, j, hj1, hj2, hxe⟩ := hx
  have hmmem : (k, m) ∈ st.metas := mem_of_lookup _ _ _ hlk
  obtain ⟨⟨n, hn, hbeg⟩, hkey, cm, hcm, hcmid, hcml⟩ := hent (k, m) hmmem
  obtain ⟨⟨n', hn', hbeg'⟩, hkey', cp, hcp, hcpid, hcpl⟩ := hent p hp
  have hcmc : cm = c := by
    apply class_unique classes hcls cm c hcm hc
    have hh := hcmid
    rw [hcl] at hh
    exact (Option.some.inj hh).symm
  have hcpc : cp = c := by
    apply class_unique classes hcls cp c hcp hc
    have hh := hcpid
    rw [hpcl] at hh
    exact (Option.some.inj hh).symm
  obtain ⟨_, hsz0, hszle⟩ := hcls.1 c hc
  have hlimm : m.bump_limit = Press.DATA_ALIGNMENT / c.size := by rw [hcml, hcmc]
  have hlimp : p.2.bump_limit = Press.DATA_ALIGNMENT / c.size := by rw [hcpl, hcpc]
  by_cases hcb : p.2.chunk_begin = m.chunk_begin
  · have hpk : p.1 = k := by rw [hkey', hcb, ← hkey]
    have hpmem : (k, p.2) ∈ st.metas := by
      rw [← hpk]
      simpa using hp
    have hpm : p.2 = m := mem_key_unique st.metas k p.2 m hnd hpmem hmmem
    have hj2' : j < m.bump_ptr := by rw [← hpm]; exact hj2
    intro he
    rw [ha, hxe, hpm] at he
    have hmul : m.bump_ptr * c.size = j * c.size := by omega
    have := Nat.eq_of_mul_eq_mul_right hsz0 hmul
    omega
  · rw [ha, hxe]
    apply addr_ne_of_chunk_ne m.chunk_begin p.2.chunk_begin m.bump_ptr j c.size c.size
    · rw [hbeg]; exact halign n
    · rw [hbeg']; exact halign n'
    · exact fun hh => hcb hh.symm
    · have h1 : m.bump_ptr < Press.DATA_ALIGNMENT / c.size := by rw [← hlimm]; exact hlt
      have h2 := mul_lt_DA c.size m.bump_ptr hsz0 h1
      omega
    · have h1 : j < Press.DATA_ALIGNMENT / c.size := by rw [← hlimp]; exact hj1
      have h2 := mul_lt_DA c.size j hsz0 h1
      omega

theorem tryAllocateOnce_eq_noBump (chunkData : Nat → Nat) (c : ClassDesc)
    (st : SysState) (hb : st.bump c.id = none) :
    tryAllocateOnce chunkData c st = (none, tryReplaceChunk chunkData c st) := by
  simp only [tryAllocateOnce, hb]

theorem tryAllocateOnce_eq_noMeta (chunkData : Nat → Nat) (c : ClassDesc)
    (st : SysState) (k : Nat) (hb : st.bump c.id = some k)
    (hl : st.metas.lookup k = none) :
    tryAllocateOnce chunkData c st = (none, tryReplaceChunk chunkData c st) := by
  simp only [tryAllocateOnce, hb, hl]

theorem tryAllocateOnce_eq_exhausted (chunkData : Nat → Nat) (c : ClassDesc)
    (st : SysState) (k : Nat) (m : Press.ChunkMetadata)
    (hb : st.bump c.id = some k) (hl : st.metas.lookup k = some m)
    (hfull : m.bump_limit ≤ m.bump_ptr) :
    tryAllocateOnce chunkData c st
      = (none, tryReplaceChunk chunkData c
          { st with metas := setMeta st.metas k { m with bump_ptr := m.bump_ptr + 1 } }) := by
  simp only [tryAllocateOnce, hb, hl, tryAllocateFromChunk_eq_none c.size m hfull]

theorem tryAllocateOnce_eq_hit (chunkData : Nat → Nat) (c : ClassDesc)
    (st : SysState) (k : Nat) (m : Press.ChunkMetadata)
    (hb : st.bump c.id = some k) (hl : st.metas.lookup k = some m)
    (hlt : m.bump_ptr < m.bump_limit) :
    tryAllocateOnce chunkData c st
      = (some (m.chunk_begin + m.bump_ptr * c.size),
         { st with metas := setMeta st.metas k { m with bump_ptr := m.bump_ptr + 1 } }) := by
  simp only [tryAllocateOnce, hb, hl, tryAllocateFromChunk_eq_some c.size m hlt]

/-- `try_allocate_once` preserves the press invariant, only grows the
committed metadata, leaves the magazine layer and memory alone, and a
returned address is exactly the next object of the serving chunk,
recorded below the advanced bump pointer. -/
theorem tryAllocateOnce_spec (classes : List ClassDesc) (chunkData : Nat → Nat)
    (c : ClassDesc) (st : SysState) (res : Option Nat) (st' : SysState)
    (ho : ChunkOracleOk chunkData) (hcls : ClassesOk classes) (hc : c ∈ classes)
    (hM : MetaInv classes chunkData st)
    (h : tryAllocateOnce chunkData c st = (res, st')) :
    MetaInv classes chunkData st' ∧
    metasStable st.metas st'.metas ∧
    st'.perClass = st.perClass ∧
    st'.mem = st.mem ∧
    (∀ a, res = some a → FreshIssue c st a ∧ IssuedEntry c st'.metas a) := by
  cases hbk : st.bump c.id with
  | none =>
    rw [tryAllocateOnce_eq_noBump chunkData c st hbk, Prod.mk.injEq] at h
    obtain ⟨e1, e2⟩ := h
    subst e2
    obtain ⟨hM', hs', _, _, _, _⟩ := tryReplaceChunk_spec classes chunkData c st ho hcls hc hM
    refine ⟨hM', hs', rfl, rfl, ?_⟩
    intro a ha
    rw [← e1] at ha
    exact Option.noConfusion ha
  | some k =>
    cases hlk : st.metas.lookup k with
    | none =>
      rw [tryAllocateOnce_eq_noMeta chunkData c st k hbk hlk, Prod.mk.injEq] at h
      obtain ⟨e1, e2⟩ := h
      subst e2
      obtain ⟨hM', hs', _, _, _, _⟩ := tryReplaceChunk_spec classes chunkData c st ho hcls hc hM
      refine ⟨hM', hs', rfl, rfl, ?_⟩
      intro a ha
      rw [← e1] at ha
      exact Option.noConfusion ha
    | some m =>
      have hmmem : (k, m) ∈ st.metas := mem_of_lookup _ _ _ hlk
      by_cases hfull : m.bump_limit ≤ m.bump_ptr
      · rw [tryAllocateOnce_eq_exhausted chunkData c st k m hbk hlk hfull,
          Prod.mk.injEq] at h
        obtain ⟨e1, e2⟩ := h
        subst e2
        obtain ⟨hMi, hsi⟩ := setMeta_inc_spec classes chunkData st k m hM hmmem
        obtain ⟨hM', hs', _, _, _, _⟩ := tryReplaceChunk_spec classes chunkData c
          { st with metas := setMeta st.metas k { m with bump_ptr := m.bump_ptr + 1 } }
          ho hcls hc hMi
        refine ⟨hM', metasStable_trans _ _ _ hsi hs', rfl, rfl, ?_⟩
        intro a ha
        rw [← e1] at ha
        exact Option.noConfusion ha
      · have hlt : m.bump_ptr < m.bump_limit := Nat.not_le.mp hfull
        rw [tryAllocateOnce_eq_hit chunkData c st k m hbk hlk hlt, Prod.mk.injEq] at h
        obtain ⟨e1, e2⟩ := h
        subst e2
        obtain ⟨hMi, hsi⟩ := setMeta_inc_spec classes chunkData st k m hM hmmem
        have hclm : m.class_id = some c.id := by
          obtain ⟨m0, hm0, hm0cl⟩ := hM.2.2 c.id k hbk
          have hmm0 : m = m0 := mem_key_unique st.metas k m m0 hM.1 hmmem hm0
          rw [hmm0]
          exact hm0cl
        refine ⟨hMi, hsi, rfl, rfl, ?_⟩
        intro a ha
        rw [← e1] at ha
        have haa : m.chunk_begin + m.bump_ptr * c.size = a := Option.some.inj ha
        constructor
        · exact ⟨k, m, hlk, hclm, hlt, haa.symm⟩
        · refine ⟨(k, { m with bump_ptr := m.bump_ptr + 1 }),
            mem_setMeta_self st.metas k _ m hmmem, ?_, m.bump_ptr, ?_, ?_, ?_⟩
          · exact hclm
          · exact hlt
          · exact Nat.lt_succ_self _
          · exact haa.symm


theorem pressAllocate_eq_some (chunkData : Nat → Nat) (c : ClassDesc)
    (st : SysState) (a : Nat) (st1 : SysState)
    (h : tryAllocateOnce chunkData c st = (some a, st1)) :
    pressAllocate chunkData c st = (some a, st1) := by
  simp only [pressAllocate, h]

theorem pressAllocate_eq_none (chunkData : Nat → Nat) (c : ClassDesc)
    (st : SysState) (st1 : SysState)
    (h : tryAllocateOnce chunkData c st = (none, st1)) :
    pressAllocate chunkData c st = tryAllocateOnce chunkData c st1 := by
  simp only [pressAllocate, h]

/-- `allocate_one_object` (the retry loop): press invariant, metadata
stability, untouched magazine layer, and any returned address lies
under the advanced bump pointer of a committed chunk of class `c` and
was never produced before. -/
theorem pressAllocate_spec (classes : List ClassDesc) (chunkData : Nat → Nat)
    (c : ClassDesc) (st : SysState) (res : Option Nat) (st' : SysState)
    (ho : ChunkOracleOk chunkData) (hcls : ClassesOk classes) (hc : c ∈ classes)
    (hM : MetaInv classes chunkData st)
    (h : pressAllocate chunkData c st = (res, st')) :
    MetaInv classes chunkData st' ∧
    metasStable st.metas st'.metas ∧
    st'.perClass = st.perClass ∧
    st'.mem = st.mem ∧
    (∀ a, res = some a → IssuedEntry c st'.metas a ∧
      ∀ x, IssuedEntry c st.metas x → a ≠ x) := by
  rcases h1 : tryAllocateOnce chunkData c st with ⟨r1, st1⟩
  obtain ⟨hM1, hs1, hp1, hm1, hsome1⟩ :=
    tryAllocateOnce_spec classes chunkData c st r1 st1 ho hcls hc hM h1
  cases r1 with
  | some a1 =>
    rw [pressAllocate_eq_some chunkData c st a1 st1 h1, Prod.mk.injEq] at h
    obtain ⟨e1, e2⟩ := h
    subst e2
    refine ⟨hM1, hs1, hp1, hm1, ?_⟩
    intro a ha
    rw [← e1] at ha
    have haa : a1 = a := Option.some.inj ha
    subst haa
    obtain ⟨hf, hie⟩ := hsome1 a1 rfl
    exact ⟨hie, fun x hx =>
      freshIssue_ne_issued classes chunkData c st ho hcls hc hM a1 hf x hx⟩
  | none =>
    rw [pressAllocate_eq_none chunkData c st st1 h1] at h
    obtain ⟨hM2, hs2, hp2, hm2, hsome2⟩ :=
      tryAllocateOnce_spec classes chunkData c st1 res st' ho hcls hc hM1 h
    refine ⟨hM2, metasStable_trans _ _ _ hs1 hs2, hp2.trans hp1, hm2.trans hm1, ?_⟩
    intro a ha
    obtain ⟨hf, hie⟩ := hsome2 a ha
    refine ⟨hie, ?_⟩
    intro x hx
    exact freshIssue_ne_issued classes chunkData c st1 ho hcls hc hM1 a hf x
      (IssuedEntry_mono c st.metas st1.metas hs1 x hx)

theorem pressAllocateLog_eq_some (chunkData : Nat → Nat) (c : ClassDesc)
    (st : SysState) (a : Nat) (st1 : SysState)
    (h : pressAllocate chunkData c st = (some a, st1)) :
    pressAllocateLog chunkData c st
      = (some a, updateClass st1 c.id
          { st1.perClass c.id with issued := a :: (st1.perClass c.id).issued }) := by
  simp only [pressAllocateLog, h]

theorem pressAllocateLog_eq_none (chunkData : Nat → Nat) (c : ClassDesc)
    (st : SysState) (st1 : SysState)
    (h : pressAllocate chunkData c st = (none, st1)) :
    pressAllocateLog chunkData c st = (none, st1) := by
  simp only [pressAllocateLog, h]

/-- Logged press allocation: on success, exactly the `issued` list of
class `c` receives the fresh address. -/
theorem pressAllocateLog_spec (classes : List ClassDesc) (chunkData : Nat → Nat)
    (c : ClassDesc) (st : SysState) (res : Option Nat) (st' : SysState)
    (ho : ChunkOracleOk chunkData) (hcls : ClassesOk classes) (hc : c ∈ classes)
    (hM : MetaInv classes chunkData st)
    (h : pressAllocateLog chunkData c st = (res, st')) :
    MetaInv classes chunkData st' ∧
    metasStable st.metas st'.metas ∧
    st'.mem = st.mem ∧
    (res = none → st'.perClass = st.perClass) ∧
    (∀ a, res = some a →
      st'.perClass = updateFn st.perClass c.id
        { st.perClass c.id with issued := a :: (st.perClass c.id).issued } ∧
      IssuedEntry c st'.metas a ∧
      (∀ x, IssuedEntry c st.metas x → a ≠ x)) := by
  rcases h1 : pressAllocate chunkData c st with ⟨r1, st1⟩
  obtain ⟨hM1, hs1, hp1, hm1, hsome1⟩ :=
    pressAllocate_spec classes chunkData c st r1 st1 ho hcls hc hM h1
  cases r1 with
  | none =>
    rw [pressAllocateLog_eq_none chunkData c st st1 h1, Prod.mk.injEq] at h
    obtain ⟨e1, e2⟩ := h
    subst e2
    refine ⟨hM1, hs1, hm1, fun _ => hp1, ?_⟩
    intro a ha
    rw [← e1] at ha
    exact Option.noConfusion ha
  | some a1 =>
    rw [pressAllocateLog_eq_some chunkData c st a1 st1 h1, Prod.mk.injEq] at h
    obtain ⟨e1, e2⟩ := h
    subst e2
    refine ⟨MetaInv_ext classes chunkData st1 _ rfl rfl rfl hM1, hs1, hm1, ?_, ?_⟩
    · intro hnone
      rw [← e1] at hnone
      exact Option.noConfusion hnone
    · intro a ha
      rw [← e1] at ha
      have haa : a1 = a := Option.some.inj ha
      subst haa
      obtain ⟨hie, hfresh⟩ := hsome1 a1 rfl
      refine ⟨?_, hie, hfresh⟩
      rw [updateClass_perClass, hp1]

theorem magPopulate_zero (chunkData : Nat → Nat) (c : ClassDesc)
    (m : List Nat) (st : SysState) : magPopulate chunkData c 0 m st = (m, st) := rfl

theorem magPopulate_fullStop (chunkData : Nat → Nat) (c : ClassDesc) (fuel : Nat)
    (m : List Nat) (st : SysState) (h : ¬ m.length < MAGAZINE_SIZE) :
    magPopulate chunkData c (fuel + 1) m st = (m, st) := by
  simp only [magPopulate, if_neg h]

theorem magPopulate_step_some (chunkData : Nat → Nat) (c : ClassDesc) (fuel : Nat)
    (m : List Nat) (st : SysState) (a : Nat) (st1 : SysState)
    (hlen : m.length < MAGAZINE_SIZE)
    (h : pressAllocateLog chunkData c st = (some a, st1)) :
    magPopulate chunkData c (fuel + 1) m st = magPopulate chunkData c fuel (a :: m) st1 := by
  simp only [magPopulate, if_pos hlen, h]

theorem magPopulate_step_none (chunkData : Nat → Nat) (c : ClassDesc) (fuel : Nat)
    (m : List Nat) (st : SysState) (st1 : SysState)
    (hlen : m.length < MAGAZINE_SIZE)
    (h : pressAllocateLog chunkData c st = (none, st1)) :
    magPopulate chunkData c (fuel + 1) m st = (m, st1) := by
  simp only [magPopulate, if_pos hlen, h]

/-- `Magazine::populate` from the press: the produced elements are
fresh, pairwise distinct, appended in front of both the magazine and
the `issued` log, and nothing else of the class state changes. -/
theorem magPopulate_spec (classes : List ClassDesc) (chunkData : Nat → Nat)
    (c : ClassDesc) (ho : ChunkOracleOk chunkData) (hcls : ClassesOk classes)
    (hc : c ∈ classes) :
    ∀ (fuel : Nat) (mag : List Nat) (st : SysState) (mag' : List Nat) (st' : SysState),
      MetaInv classes chunkData st →
      magPopulate chunkData c fuel mag st = (mag', st') →
      MetaInv classes chunkData st' ∧
      metasStable st.metas st'.metas ∧
      st'.mem = st.mem ∧
      (∀ cid, cid ≠ c.id → st'.perClass cid = st.perClass cid) ∧
      ∃ new : List Nat,
        mag' = new ++ mag ∧
        st'.perClass c.id
          = { st.perClass c.id with issued := new ++ (st.perClass c.id).issued } ∧
        (∀ x ∈ new, IssuedEntry c st'.metas x) ∧
        new.Nodup ∧
        (∀ x ∈ new, ∀ y, IssuedEntry c st.metas y → x ≠ y) := by
  intro fuel
  induction fuel with
  | zero =>
    intro mag st mag' st' hM h
    rw [magPopulate_zero, Prod.mk.injEq] at h
    obtain ⟨e1, e2⟩ := h
    subst e1
    subst e2
    exact ⟨hM, metasStable_refl _, rfl, fun _ _ => rfl, [], (List.nil_append mag).symm,
      by rw [List.nil_append], fun x hx => absurd hx (List.not_mem_nil x),
      List.nodup_nil, fun x hx => absurd hx (List.not_mem_nil x)⟩
  | succ fuel ih =>
    intro mag st mag' st' hM h
    by_cases hlen : mag.length < MAGAZINE_SIZE
    · rcases h1 : pressAllocateLog chunkData c st with ⟨r1, st1⟩
      cases r1 with
      | none =>
        rw [magPopulate_step_none chunkData c fuel mag st st1 hlen h1,
          Prod.mk.injEq] at h
        obtain ⟨e1, e2⟩ := h
        subst e1
        subst e2
        obtain ⟨hM1, hs1, hm1, hpn, _⟩ :=
          pressAllocateLog_spec classes chunkData c st none st1 ho hcls hc hM h1
        have hp1 := hpn rfl
        exact ⟨hM1, hs1, hm1, fun cid _ => by rw [hp1], [], (List.nil_append mag).symm,
          by rw [hp1, List.nil_append], fun x hx => absurd hx (List.not_mem_nil x),
          List.nodup_nil, fun x hx => absurd hx (List.not_mem_nil x)⟩
      | some a =>
        rw [magPopulate_step_some chunkData c fuel mag st a st1 hlen h1] at h
        obtain ⟨hM1, hs1, hm1, _, hsome⟩ :=
          pressAllocateLog_spec classes chunkData c st (some a) st1 ho hcls hc hM h1
        obtain ⟨hpc1, hie1, hfresh1⟩ := hsome a rfl
        obtain ⟨hM2, hs2, hm2, hother2, new1, hmag, hpcc, hents, hnd, hfr⟩ :=
          ih (a :: mag) st1 mag' st' hM1 h
        refine ⟨hM2, metasStable_trans _ _ _ hs1 hs2, hm2.trans hm1, ?_,
          new1 ++ [a], ?_, ?_, ?_, ?_, ?_⟩
        · intro cid hcid
          rw [hother2 cid hcid, hpc1, updateFn_other _ _ _ _ hcid]
        · rw [hmag, List.append_assoc, List.singleton_append]
        · rw [hpcc, hpc1, updateFn_same, List.append_assoc, List.singleton_append]
        · intro x hx
          rcases List.mem_append.mp hx with h' | h'
          · exact hents x h'
          · rw [List.mem_singleton] at h'
            subst h'
            exact IssuedEntry_mono c st1.metas st'.metas hs2 x hie1
        · rw [List.nodup_append]
          refine ⟨hnd, List.nodup_singleton a, ?_⟩
          intro x hx hx2
          rw [List.mem_singleton] at hx2
          exact hfr x hx a hie1 hx2
        · intro x hx y hy
          rcases List.mem_append.mp hx with h' | h'
          · exact hfr x h' y (IssuedEntry_mono c st.metas st1.metas hs1 y hy)
          · rw [List.mem_singleton] at h'
            subst h'
            exact hfresh1 y hy
    · rw [magPopulate_fullStop chunkData c fuel mag st hlen, Prod.mk.injEq] at h
      obtain ⟨e1, e2⟩ := h
      subst e1
      subst e2
      exact ⟨hM, metasStable_refl _, rfl, fun _ _ => rfl, [], (List.nil_append mag).symm,
        by rw [List.nil_append], fun x hx => absurd hx (List.not_mem_nil x),
        List.nodup_nil, fun x hx => absurd hx (List.not_mem_nil x)⟩


/-! ### Magazine and depot layer -/

theorem releaseMagazine_same (cs : ClassState) (m : List Nat) :
    (releaseMagazine cs m).callers = cs.callers ∧
    (releaseMagazine cs m).allocMag = cs.allocMag ∧
    (releaseMagazine cs m).relMag = cs.relMag ∧
    (releaseMagazine cs m).allocCount = cs.allocCount ∧
    (releaseMagazine cs m).releaseCount = cs.releaseCount ∧
    (releaseMagazine cs m).issued = cs.issued ∧
    (releaseMagazine cs m).allocLog = cs.allocLog := by
  unfold releaseMagazine
  by_cases h0 : m.length = 0
  · rw [if_pos h0]
    exact ⟨rfl, rfl, rfl, rfl, rfl, rfl, rfl⟩
  · rw [if_neg h0]
    by_cases h1 : m.length = MAGAZINE_SIZE
    · rw [if_pos h1]
      exact ⟨rfl, rfl, rfl, rfl, rfl, rfl, rfl⟩
    · rw [if_neg h1]
      exact ⟨rfl, rfl, rfl, rfl, rfl, rfl, rfl⟩

/-- Releasing a magazine to the depot keeps every tracked address: the
released magazine's contents join the depot (an empty one is dropped). -/
theorem containers_releaseMagazine (cs : ClassState) (m : List Nat) :
    (↑(containers (releaseMagazine cs m)) : Multiset Nat) = ↑m + ↑(containers cs) := by
  unfold releaseMagazine containers
  by_cases h0 : m.length = 0
  · rw [if_pos h0]
    have hm : m = [] := List.length_eq_zero.mp h0
    subst hm
    simp
  · rw [if_neg h0]
    by_cases h1 : m.length = MAGAZINE_SIZE
    · rw [if_pos h1]
      simp [List.perm_iff_count, List.count_append]
      intro y
      omega
    · rw [if_neg h1]
      simp [List.perm_iff_count, List.count_append]
      intro y
      omega

theorem releaseMagazine_partMags_ne (cs : ClassState) (m : List Nat)
    (hparts : ∀ x ∈ cs.partMags, x ≠ []) :
    ∀ x ∈ (releaseMagazine cs m).partMags, x ≠ [] := by
  unfold releaseMagazine
  by_cases h0 : m.length = 0
  · rw [if_pos h0]
    exact hparts
  · rw [if_neg h0]
    by_cases h1 : m.length = MAGAZINE_SIZE
    · rw [if_pos h1]
      exact hparts
    · rw [if_neg h1]
      intro x hx
      have hx' : x ∈ m :: cs.partMags := hx
      rcases List.mem_cons.mp hx' with h | h
      · intro he
        apply h0
        rw [← h, he]
        rfl
      · exact hparts x h

theorem releaseMagazine_fullMags_ne (cs : ClassState) (m : List Nat)
    (hfulls : ∀ x ∈ cs.fullMags, x ≠ []) :
    ∀ x ∈ (releaseMagazine cs m).fullMags, x ≠ [] := by
  unfold releaseMagazine
  by_cases h0 : m.length = 0
  · rw [if_pos h0]
    exact hfulls
  · rw [if_neg h0]
    by_cases h1 : m.length = MAGAZINE_SIZE
    · rw [if_pos h1]
      intro x hx
      have hx' : x ∈ m :: cs.fullMags := hx
      rcases List.mem_cons.mp hx' with h | h
      · intro he
        apply h0
        rw [← h, he]
        rfl
      · exact hfulls x h
    · rw [if_neg h1]
      exact hfulls

/-- Per-class trace invariant: every logged issue came out of a
committed chunk of this class below its bump pointer; issued addresses
are pairwise distinct; the tracked containers hold a sub-multiset of
the issued addresses (hence are pairwise disjoint); the allocation log
is a subset of the issued addresses; caller-held count plus successful
releases equals successful allocations; depot magazines are never
empty. -/
def ClassInv (c : ClassDesc) (st : SysState) : Prop :=
  (∀ a ∈ (st.perClass c.id).issued, IssuedEntry c st.metas a) ∧
  (st.perClass c.id).issued.Nodup ∧
  (↑(containers (st.perClass c.id)) : Multiset Nat) ≤ ↑(st.perClass c.id).issued ∧
  (∀ a ∈ (st.perClass c.id).allocLog, a ∈ (st.perClass c.id).issued) ∧
  (st.perClass c.id).callers.length + (st.perClass c.id).releaseCount
    = (st.perClass c.id).allocCount ∧
  (∀ m ∈ (st.perClass c.id).partMags, m ≠ []) ∧
  (∀ m ∈ (st.perClass c.id).fullMags, m ≠ [])

theorem ClassInv_ext (c : ClassDesc) (st st' : SysState)
    (hpc : st'.perClass c.id = st.perClass c.id)
    (hst : metasStable st.metas st'.metas) (h : ClassInv c st) : ClassInv c st' := by
  unfold ClassInv at h ⊢
  rw [hpc]
  obtain ⟨h1, h2, h3, h4, h5, h6, h7⟩ := h
  exact ⟨fun a ha => IssuedEntry_mono c st.metas st'.metas hst a (h1 a ha),
    h2, h3, h4, h5, h6, h7⟩

theorem refillMagazine_eq_part (chunkData : Nat → Nat) (c : ClassDesc)
    (st : SysState) (newMag : List Nat) (restPart : List (List Nat))
    (hp : (st.perClass c.id).partMags = newMag :: restPart) :
    refillMagazine chunkData c st
      = (some ((magGet newMag).1.getD 0),
         updateClass st c.id
           (releaseMagazine
             { st.perClass c.id with partMags := restPart, allocMag := (magGet newMag).2 }
             (st.perClass c.id).allocMag)) := by
  simp only [refillMagazine, hp]

theorem refillMagazine_eq_full (chunkData : Nat → Nat) (c : ClassDesc)
    (st : SysState) (newMag : List Nat) (restFull : List (List Nat))
    (hp : (st.perClass c.id).partMags = [])
    (hf : (st.perClass c.id).fullMags = newMag :: restFull) :
    refillMagazine chunkData c st
      = (some ((magGet newMag).1.getD 0),
         updateClass st c.id
           (releaseMagazine
             { st.perClass c.id with fullMags := restFull, allocMag := (magGet newMag).2 }
             (st.perClass c.id).allocMag)) := by
  simp only [refillMagazine, hp, hf]

theorem refillMagazine_eq_press_none (chunkData : Nat → Nat) (c : ClassDesc)
    (st : SysState) (st1 : SysState)
    (hp : (st.perClass c.id).partMags = [])
    (hf : (st.perClass c.id).fullMags = [])
    (h1 : pressAllocateLog chunkData c st = (none, st1)) :
    refillMagazine chunkData c st = (none, st1) := by
  simp only [refillMagazine, hp, hf, h1]

theorem refillMagazine_eq_press_some (chunkData : Nat → Nat) (c : ClassDesc)
    (st : SysState) (a : Nat) (st1 : SysState) (mag2 : List Nat) (st2 : SysState)
    (hp : (st.perClass c.id).partMags = [])
    (hf : (st.perClass c.id).fullMags = [])
    (h1 : pressAllocateLog chunkData c st = (some a, st1))
    (h2 : magPopulate chunkData c MAGAZINE_SIZE (st1.perClass c.id).allocMag st1
      = (mag2, st2)) :
    refillMagazine chunkData c st
      = (some a, updateClass st2 c.id
          { st2.perClass c.id with allocMag := mag2 }) := by
  simp only [refillMagazine, hp, hf, h1, h2]


/-- `ClassInfo::refill_magazine`: the press invariant and per-class
tracking survive, the caller-facing counters do not move, and on
success the returned object together with the updated containers is
still a sub-multiset of the (grown) issue log. -/
theorem refillMagazine_spec (classes : List ClassDesc) (chunkData : Nat → Nat)
    (c : ClassDesc) (st : SysState) (res : Option Nat) (st' : SysState)
    (ho : ChunkOracleOk chunkData) (hcls : ClassesOk classes) (hc : c ∈ classes)
    (hM : MetaInv classes chunkData st) (hCl : ClassInv c st)
    (h : refillMagazine chunkData c st = (res, st')) :
    MetaInv classes chunkData st' ∧
    metasStable st.metas st'.metas ∧
    st'.mem = st.mem ∧
    (∀ cid, cid ≠ c.id → st'.perClass cid = st.perClass cid) ∧
    (st'.perClass c.id).callers = (st.perClass c.id).callers ∧
    (st'.perClass c.id).allocCount = (st.perClass c.id).allocCount ∧
    (st'.perClass c.id).releaseCount = (st.perClass c.id).releaseCount ∧
    (st'.perClass c.id).allocLog = (st.perClass c.id).allocLog ∧
    (∀ x ∈ (st.perClass c.id).issued, x ∈ (st'.perClass c.id).issued) ∧
    (∀ x ∈ (st'.perClass c.id).issued, IssuedEntry c st'.metas x) ∧
    (st'.perClass c.id).issued.Nodup ∧
    (∀ m ∈ (st'.perClass c.id).partMags, m ≠ []) ∧
    (∀ m ∈ (st'.perClass c.id).fullMags, m ≠ []) ∧
    (res = none →
      (↑(containers (st'.perClass c.id)) : Multiset Nat) ≤ ↑(st'.perClass c.id).issued) ∧
    (∀ a, res = some a →
      a ::ₘ (↑(containers (st'.perClass c.id)) : Multiset Nat) ≤ ↑(st'.perClass c.id).issued) := by
  obtain ⟨hIss, hNd, hLe, hLog, hCnt, hPne, hFne⟩ := hCl
  cases hpm : (st.perClass c.id).partMags with
  | cons newMag restPart =>
    have hnmem : newMag ∈ (st.perClass c.id).partMags := by
      rw [hpm]
      exact List.mem_cons_self _ _
    have hne : newMag ≠ [] := hPne newMag hnmem
    obtain ⟨b, bs, hbs⟩ := List.exists_cons_of_ne_nil hne
    subst hbs
    rw [refillMagazine_eq_part chunkData c st (b :: bs) restPart hpm,
      Prod.mk.injEq] at h
    obtain ⟨e1, e2⟩ := h
    subst e2
    have e1' : some b = res := e1
    have hpc' : (updateClass st c.id
          (releaseMagazine
            { st.perClass c.id with partMags := restPart, allocMag := (magGet (b :: bs)).2 }
            (st.perClass c.id).allocMag)).perClass c.id
        = releaseMagazine
            { st.perClass c.id with partMags := restPart, allocMag := bs }
            (st.perClass c.id).allocMag := by
      rw [updateClass_perClass, updateFn_same]
      rfl
    obtain ⟨rc, ra, rr, rac, rrc, ri, rl⟩ := releaseMagazine_same
      { st.perClass c.id with partMags := restPart, allocMag := bs }
      ((st.perClass c.id).allocMag)
    refine ⟨MetaInv_ext classes chunkData st _ rfl rfl rfl hM, metasStable_refl st.metas,
      rfl, ?_, ?_, ?_, ?_, ?_, ?_, ?_, ?_, ?_, ?_, ?_, ?_⟩
    · intro cid hcid
      rw [updateClass_perClass, updateFn_other _ _ _ _ hcid]
    · rw [hpc']
      exact rc
    · rw [hpc']
      exact rac
    · rw [hpc']
      exact rrc
    · rw [hpc']
      exact rl
    · intro x hx
      rw [hpc', ri]
      exact hx
    · intro x hx
      rw [hpc', ri] at hx
      have hx' : x ∈ (st.perClass c.id).issued := hx
      exact hIss x hx'
    · rw [hpc', ri]
      exact hNd
    · rw [hpc']
      apply releaseMagazine_partMags_ne
      intro x hx
      have hx' : x ∈ restPart := hx
      refine hPne x ?_
      rw [hpm]
      exact List.mem_cons_of_mem _ hx'
    · rw [hpc']
      apply releaseMagazine_fullMags_ne
      intro x hx
      have hx' : x ∈ (st.perClass c.id).fullMags := hx
      exact hFne x hx'
    · intro hn
      rw [← e1'] at hn
      exact Option.noConfusion hn
    · intro a ha
      have hab : b = a := Option.some.inj (e1'.trans ha)
      subst hab
      rw [hpc', containers_releaseMagazine, ri]
      have hsh : (b ::ₘ (↑((st.perClass c.id).allocMag)
            + ↑(containers { st.perClass c.id with partMags := restPart, allocMag := bs })
            : Multiset Nat))
          = ↑(containers (st.perClass c.id)) := by
        unfold containers
        rw [hpm]
        simp [List.perm_iff_count, List.count_append, List.count_cons]
        intro y
        omega
      rw [hsh]
      exact hLe
  | nil =>
    cases hfm : (st.perClass c.id).fullMags with
    | cons newMag restFull =>
      have hnmem : newMag ∈ (st.perClass c.id).fullMags := by
        rw [hfm]
        exact List.mem_cons_self _ _
      have hne : newMag ≠ [] := hFne newMag hnmem
      obtain ⟨b, bs, hbs⟩ := List.exists_cons_of_ne_nil hne
      subst hbs
      rw [refillMagazine_eq_full chunkData c st (b :: bs) restFull hpm hfm,
        Prod.mk.injEq] at h
      obtain ⟨e1, e2⟩ := h
      subst e2
      have e1' : some b = res := e1
      have hpc' : (updateClass st c.id
            (releaseMagazine
              { st.perClass c.id with fullMags := restFull, allocMag := (magGet (b :: bs)).2 }
              (st.perClass c.id).allocMag)).perClass c.id
          = releaseMagazine
              { st.perClass c.id with fullMags := restFull, allocMag := bs }
              (st.perClass c.id).allocMag := by
        rw [updateClass_perClass, updateFn_same]
        rfl
      obtain ⟨rc, ra, rr, rac, rrc, ri, rl⟩ := releaseMagazine_same
        { st.perClass c.id with fullMags := restFull, allocMag := bs }
        ((st.perClass c.id).allocMag)
      refine ⟨MetaInv_ext classes chunkData st _ rfl rfl rfl hM, metasStable_refl st.metas,
        rfl, ?_, ?_, ?_, ?_, ?_, ?_, ?_, ?_, ?_, ?_, ?_, ?_⟩
      · intro cid hcid
        rw [updateClass_perClass, updateFn_other _ _ _ _ hcid]
      · rw [hpc']
        exact rc
      · rw [hpc']
        exact rac
      · rw [hpc']
        exact rrc
      · rw [hpc']
        exact rl
      · intro x hx
        rw [hpc', ri]
        exact hx
      · intro x hx
        rw [hpc', ri] at hx
        have hx' : x ∈ (st.perClass c.id).issued := hx
        exact hIss x hx'
      · rw [hpc', ri]
        exact hNd
      · rw [hpc']
        apply releaseMagazine_partMags_ne
        intro x hx
        have hx' : x ∈ (st.perClass c.id).partMags := hx
        exact hPne x hx'
      · rw [hpc']
        apply releaseMagazine_fullMags_ne
        intro x hx
        have hx' : x ∈ restFull := hx
        refine hFne x ?_
        rw [hfm]
        exact List.mem_cons_of_mem _ hx'
      · intro hn
        rw [← e1'] at hn
        exact Option.noConfusion hn
      · intro a ha
        have hab : b = a := Option.some.inj (e1'.trans ha)
        subst hab
        rw [hpc', containers_releaseMagazine, ri]
        have hsh : (b ::ₘ (↑((st.perClass c.id).allocMag)
              + ↑(containers { st.perClass c.id with fullMags := restFull, allocMag := bs })
              : Multiset Nat))
            = ↑(containers (st.perClass c.id)) := by
          unfold containers
          rw [hfm]
          simp [List.perm_iff_count, List.count_append, List.count_cons]
          intro y
          omega
        rw [hsh]
        exact hLe
    | nil =>
      rcases h1 : pressAllocateLog chunkData c st with ⟨r1, st1⟩
      cases r1 with
      | none =>
        rw [refillMagazine_eq_press_none chunkData c st st1 hpm hfm h1,
          Prod.mk.injEq] at h
        obtain ⟨e1, e2⟩ := h
        subst e2
        obtain ⟨hM1, hs1, hm1, hpn, _⟩ :=
          pressAllocateLog_spec classes chunkData c st none st1 ho hcls hc hM h1
        have hp1 := hpn rfl
        refine ⟨hM1, hs1, hm1, fun cid _ => by rw [hp1], by rw [hp1], by rw [hp1],
          by rw [hp1], by rw [hp1], ?_, ?_, ?_, ?_, ?_, ?_, ?_⟩
        · intro x hx
          rw [hp1]
          exact hx
        · intro x hx
          rw [hp1] at hx
          exact IssuedEntry_mono c st.metas st1.metas hs1 x (hIss x hx)
        · rw [hp1]
          exact hNd
        · rw [hp1]
          exact hPne
        · rw [hp1]
          exact hFne
        · intro _
          rw [hp1]
          exact hLe
        · intro a ha
          rw [← e1] at ha
          exact Option.noConfusion ha
      | some a =>
        rcases h2 : magPopulate chunkData c MAGAZINE_SIZE
            ((st1.perClass c.id).allocMag) st1 with ⟨mag2, st2⟩
        rw [refillMagazine_eq_press_some chunkData c st a st1 mag2 st2 hpm hfm h1 h2,
          Prod.mk.injEq] at h
        obtain ⟨e1, e2⟩ := h
        subst e2
        obtain ⟨hM1, hs1, hm1, _, hsome1⟩ :=
          pressAllocateLog_spec classes chunkData c st (some a) st1 ho hcls hc hM h1
        obtain ⟨hpc1, hie1, hfresh1⟩ := hsome1 a rfl
        obtain ⟨hM2, hs2, hm2, hother2, new1, hmag2, hpcc2, hents2, hnd2, hfr2⟩ :=
          magPopulate_spec classes chunkData c ho hcls hc MAGAZINE_SIZE
            ((st1.perClass c.id).allocMag) st1 mag2 st2 hM1 h2
        have hb1 : st1.perClass c.id
            = { st.perClass c.id with issued := a :: (st.perClass c.id).issued } := by
          rw [hpc1, updateFn_same]
        have hb2 : st2.perClass c.id
            = { st.perClass c.id with
                issued := new1 ++ (a :: (st.perClass c.id).issued) } := by
          rw [hpcc2, hb1]
        have hpcF : (updateClass st2 c.id
              { st2.perClass c.id with allocMag := mag2 }).perClass c.id
            = { st.perClass c.id with
                allocMag := mag2,
                issued := new1 ++ (a :: (st.perClass c.id).issued) } := by
          rw [updateClass_perClass, updateFn_same, hb2]
        refine ⟨MetaInv_ext classes chunkData st2 _ rfl rfl rfl hM2,
          metasStable_trans _ _ _ hs1 hs2, hm2.trans hm1, ?_, ?_, ?_, ?_, ?_, ?_,
          ?_, ?_, ?_, ?_, ?_, ?_⟩
        · intro cid hcid
          rw [updateClass_perClass, updateFn_other _ _ _ _ hcid, hother2 cid hcid,
            hpc1, updateFn_other _ _ _ _ hcid]
        · rw [hpcF]
        · rw [hpcF]
        · rw [hpcF]
        · rw [hpcF]
        · intro x hx
          rw [hpcF]
          exact List.mem_append_right _ (List.mem_cons_of_mem _ hx)
        · intro x hx
          have hx' : x ∈ new1 ++ (a :: (st.perClass c.id).issued) := by
            rw [hpcF] at hx
            exact hx
          rcases List.mem_append.mp hx' with h' | h'
          · exact hents2 x h'
          · rcases List.mem_cons.mp h' with h'' | h''
            · subst h''
              exact IssuedEntry_mono c st1.metas st2.metas hs2 x hie1
            · exact IssuedEntry_mono c st.metas st2.metas
                (metasStable_trans _ _ _ hs1 hs2) x (hIss x h'')
        · rw [hpcF]
          show (new1 ++ (a :: (st.perClass c.id).issued)).Nodup
          rw [List.nodup_append]
          refine ⟨hnd2, ?_, ?_⟩
          · rw [List.nodup_cons]
            refine ⟨?_, hNd⟩
            intro ha
            exact hfresh1 a (hIss a ha) rfl
          · intro x hx1 hx2
            rcases List.mem_cons.mp hx2 with h'' | h''
            · exact hfr2 x hx1 a hie1 h''
            · exact hfr2 x hx1 x
                (IssuedEntry_mono c st.metas st1.metas hs1 x (hIss x h'')) rfl
        · intro m hm
          rw [hpcF] at hm
          have hm' : m ∈ (st.perClass c.id).partMags := hm
          exact hPne m hm'
        · intro m hm
          rw [hpcF] at hm
          have hm' : m ∈ (st.perClass c.id).fullMags := hm
          exact hFne m hm'
        · intro hn
          rw [← e1] at hn
          exact Option.noConfusion hn
        · intro a' ha'
          have hab : a = a' := Option.some.inj (e1.trans ha')
          subst hab
          have hca : mag2 = new1 ++ (st.perClass c.id).allocMag := by
            rw [hmag2, hb1]
          rw [hpcF, hca]
          have hsh : (a ::ₘ (↑(containers
                { st.perClass c.id with
                  allocMag := new1 ++ (st.perClass c.id).allocMag,
                  issued := new1 ++ (a :: (st.perClass c.id).issued) }) : Multiset Nat))
              = ↑new1 + (a ::ₘ ↑(containers (st.perClass c.id))) := by
            unfold containers
            simp [List.perm_iff_count, List.count_append, List.count_cons]
            intro y
            omega
          have hiss3 : (↑(({ st.perClass c.id with
                  allocMag := new1 ++ (st.perClass c.id).allocMag,
                  issued := new1 ++ (a :: (st.perClass c.id).issued) }
                : ClassState).issued) : Multiset Nat)
              = ↑new1 + (a ::ₘ ↑((st.perClass c.id).issued)) := by
            simp
          rw [hsh, hiss3]
          exact add_le_add_left (Multiset.cons_le_cons a hLe) _


theorem mem_containers_allocMag (cs : ClassState) (x : Nat)
    (h : x ∈ cs.allocMag) : x ∈ containers cs := by
  unfold containers
  exact List.mem_append_left _ (List.mem_append_left _ (List.mem_append_left _
    (List.mem_append_right _ h)))

theorem mem_containers_callers (cs : ClassState) (x : Nat)
    (h : x ∈ cs.callers) : x ∈ containers cs := by
  unfold containers
  exact List.mem_append_left _ (List.mem_append_left _ (List.mem_append_left _
    (List.mem_append_left _ h)))

theorem containers_sub_issued (c : ClassDesc) (st : SysState)
    (hLe : (↑(containers (st.perClass c.id)) : Multiset Nat) ≤ ↑(st.perClass c.id).issued)
    (x : Nat) (hx : x ∈ containers (st.perClass c.id)) :
    x ∈ (st.perClass c.id).issued :=
  Multiset.mem_coe.mp (Multiset.mem_of_le hLe (Multiset.mem_coe.mpr hx))

theorem sysAllocate_eq_fast (chunkData : Nat → Nat) (c : ClassDesc) (st : SysState)
    (a : Nat) (rest : List Nat) (h : (st.perClass c.id).allocMag = a :: rest) :
    sysAllocate chunkData c st
      = (some a, updateClass st c.id
          { st.perClass c.id with
            allocMag := rest,
            callers := a :: (st.perClass c.id).callers,
            allocCount := (st.perClass c.id).allocCount + 1,
            allocLog := a :: (st.perClass c.id).allocLog }) := by
  simp only [sysAllocate, h]

theorem sysAllocate_eq_refill_none (chunkData : Nat → Nat) (c : ClassDesc)
    (st : SysState) (st1 : SysState) (h : (st.perClass c.id).allocMag = [])
    (h1 : refillMagazine chunkData c st = (none, st1)) :
    sysAllocate chunkData c st = (none, st1) := by
  simp only [sysAllocate, h, h1]

theorem sysAllocate_eq_refill_some (chunkData : Nat → Nat) (c : ClassDesc)
    (st : SysState) (a : Nat) (st1 : SysState)
    (h : (st.perClass c.id).allocMag = [])
    (h1 : refillMagazine chunkData c st = (some a, st1)) :
    sysAllocate chunkData c st
      = (some a, updateClass st1 c.id
          { st1.perClass c.id with
            callers := a :: (st1.perClass c.id).callers,
            allocCount := (st1.perClass c.id).allocCount + 1,
            allocLog := a :: (st1.perClass c.id).allocLog }) := by
  simp only [sysAllocate, h, h1]

/-- `Cache::allocate` (slow path) preserves the whole invariant and only
appends to allocation logs. -/
theorem sysAllocate_inv (classes : List ClassDesc) (chunkData : Nat → Nat)
    (c : ClassDesc) (st : SysState) (res : Option Nat) (st' : SysState)
    (ho : ChunkOracleOk chunkData) (hcls : ClassesOk classes) (hc : c ∈ classes)
    (hM : MetaInv classes chunkData st) (hCl : ∀ c' ∈ classes, ClassInv c' st)
    (h : sysAllocate chunkData c st = (res, st')) :
    MetaInv classes chunkData st' ∧
    metasStable st.metas st'.metas ∧
    st'.mem = st.mem ∧
    (∀ c' ∈ classes, ClassInv c' st') ∧
    (∀ cid, ∀ x ∈ (st.perClass cid).allocLog, x ∈ (st'.perClass cid).allocLog) := by
  have hidne : ∀ c' ∈ classes, c' ≠ c → c'.id ≠ c.id := fun c' hc' hne hid =>
    hne (class_unique classes hcls c' c hc' hc hid)
  obtain ⟨hIss, hNd, hLe, hLog, hCnt, hPne, hFne⟩ := hCl c hc
  cases hmag : (st.perClass c.id).allocMag with
  | cons a rest =>
    rw [sysAllocate_eq_fast chunkData c st a rest hmag, Prod.mk.injEq] at h
    obtain ⟨e1, e2⟩ := h
    subst e2
    have hpcF : (updateClass st c.id
          { st.perClass c.id with
            allocMag := rest,
            callers := a :: (st.perClass c.id).callers,
            allocCount := (st.perClass c.id).allocCount + 1,
            allocLog := a :: (st.perClass c.id).allocLog }).perClass c.id
        = { st.perClass c.id with
            allocMag := rest,
            callers := a :: (st.perClass c.id).callers,
            allocCount := (st.perClass c.id).allocCount + 1,
            allocLog := a :: (st.perClass c.id).allocLog } := by
      rw [updateClass_perClass, updateFn_same]
    have hamem : a ∈ (st.perClass c.id).issued := by
      refine containers_sub_issued c st hLe a (mem_containers_allocMag _ a ?_)
      rw [hmag]
      exact List.mem_cons_self _ _
    refine ⟨MetaInv_ext classes chunkData st _ rfl rfl rfl hM, metasStable_refl _, rfl,
      ?_, ?_⟩
    · intro c' hc'
      by_cases hcc : c' = c
      · subst hcc
        unfold ClassInv
        rw [hpcF]
        refine ⟨?_, hNd, ?_, ?_, ?_, ?_, ?_⟩
        · intro x hx
          have hx' : x ∈ (st.perClass c'.id).issued := hx
          exact hIss x hx'
        · have hsh : (↑(containers
                { st.perClass c'.id with
                  allocMag := rest,
                  callers := a :: (st.perClass c'.id).callers,
                  allocCount := (st.perClass c'.id).allocCount + 1,
                  allocLog := a :: (st.perClass c'.id).allocLog }) : Multiset Nat)
              = ↑(containers (st.perClass c'.id)) := by
            unfold containers
            rw [hmag]
            simp [List.perm_iff_count, List.count_append, List.count_cons]
            intro y
            omega
          rw [hsh]
          exact hLe
        · intro x hx
          have hx' : x ∈ a :: (st.perClass c'.id).allocLog := hx
          rcases List.mem_cons.mp hx' with h' | h'
          · subst h'
            exact hamem
          · exact hLog x h'
        · show (a :: (st.perClass c'.id).callers).length
              + (st.perClass c'.id).releaseCount
              = (st.perClass c'.id).allocCount + 1
          rw [List.length_cons]
          omega
        · intro m hm
          have hm' : m ∈ (st.perClass c'.id).partMags := hm
          exact hPne m hm'
        · intro m hm
          have hm' : m ∈ (st.perClass c'.id).fullMags := hm
          exact hFne m hm'
      · refine ClassInv_ext c' st _ ?_ (metasStable_refl st.metas) (hCl c' hc')
        rw [updateClass_perClass, updateFn_other _ _ _ _ (hidne c' hc' hcc)]
    · intro cid x hx
      by_cases hcid : cid = c.id
      · subst hcid
        rw [updateClass_perClass, updateFn_same]
        exact List.mem_cons_of_mem _ hx
      · rw [updateClass_perClass, updateFn_other _ _ _ _ hcid]
        exact hx
  | nil =>
    rcases h1 : refillMagazine chunkData c st with ⟨r1, st1⟩
    obtain ⟨hM1, hs1, hm1, hR4, hR5, hR6, hR7, hR8, hR9, hR10, hR11, hR12, hR13,
      hR14, hR15⟩ := refillMagazine_spec classes chunkData c st r1 st1 ho hcls hc hM
        ⟨hIss, hNd, hLe, hLog, hCnt, hPne, hFne⟩ h1
    cases r1 with
    | none =>
      rw [sysAllocate_eq_refill_none chunkData c st st1 hmag h1, Prod.mk.injEq] at h
      obtain ⟨e1, e2⟩ := h
      subst e2
      refine ⟨hM1, hs1, hm1, ?_, ?_⟩
      · intro c' hc'
        by_cases hcc : c' = c
        · subst hcc
          refine ⟨hR10, hR11, hR14 rfl, ?_, ?_, hR12, hR13⟩
          · intro x hx
            rw [hR8] at hx
            exact hR9 x (hLog x hx)
          · rw [hR5, hR6, hR7]
            exact hCnt
        · exact ClassInv_ext c' st st1 (hR4 c'.id (hidne c' hc' hcc)) hs1 (hCl c' hc')
      · intro cid x hx
        by_cases hcid : cid = c.id
        · subst hcid
          rw [hR8]
          exact hx
        · rw [hR4 cid hcid]
          exact hx
    | some a =>
      rw [sysAllocate_eq_refill_some chunkData c st a st1 hmag h1, Prod.mk.injEq] at h
      obtain ⟨e1, e2⟩ := h
      subst e2
      have hpcF : (updateClass st1 c.id
            { st1.perClass c.id with
              callers := a :: (st1.perClass c.id).callers,
              allocCount := (st1.perClass c.id).allocCount + 1,
              allocLog := a :: (st1.perClass c.id).allocLog }).perClass c.id
          = { st1.perClass c.id with
              callers := a :: (st1.perClass c.id).callers,
              allocCount := (st1.perClass c.id).allocCount + 1,
              allocLog := a :: (st1.perClass c.id).allocLog } := by
        rw [updateClass_perClass, updateFn_same]
      have h15 := hR15 a rfl
      have hamem : a ∈ (st1.perClass c.id).issued :=
        Multiset.mem_coe.mp (Multiset.mem_of_le h15 (Multiset.mem_cons_self a _))
      refine ⟨MetaInv_ext classes chunkData st1 _ rfl rfl rfl hM1, hs1, hm1, ?_, ?_⟩
      · intro c' hc'
        by_cases hcc : c' = c
        · subst hcc
          unfold ClassInv
          rw [hpcF]
          refine ⟨?_, hR11, ?_, ?_, ?_, ?_, ?_⟩
          · intro x hx
            have hx' : x ∈ (st1.perClass c'.id).issued := hx
            exact hR10 x hx'
          · have hsh : (↑(containers
                  { st1.perClass c'.id with
                    callers := a :: (st1.perClass c'.id).callers,
                    allocCount := (st1.perClass c'.id).allocCount + 1,
                    allocLog := a :: (st1.perClass c'.id).allocLog }) : Multiset Nat)
                = a ::ₘ ↑(containers (st1.perClass c'.id)) := by
              unfold containers
              simp [List.perm_iff_count, List.count_append, List.count_cons]
            rw [hsh]
            exact h15
          · intro x hx
            have hx' : x ∈ a :: (st1.perClass c'.id).allocLog := hx
            rcases List.mem_cons.mp hx' with h' | h'
            · subst h'
              exact hamem
            · rw [hR8] at h'
              exact hR9 x (hLog x h')
          · show (a :: (st1.perClass c'.id).callers).length
                + (st1.perClass c'.id).releaseCount
                = (st1.perClass c'.id).allocCount + 1
            rw [List.length_cons, hR5, hR6, hR7]
            omega
          · intro m hm
            have hm' : m ∈ (st1.perClass c'.id).partMags := hm
            exact hR12 m hm'
          · intro m hm
            have hm' : m ∈ (st1.perClass c'.id).fullMags := hm
            exact hR13 m hm'
        · refine ClassInv_ext c' st _ ?_ hs1 (hCl c' hc')
          rw [updateClass_perClass, updateFn_other _ _ _ _ (hidne c' hc' hcc),
            hR4 c'.id (hidne c' hc' hcc)]
      · intro cid x hx
        by_cases hcid : cid = c.id
        · subst hcid
          rw [updateClass_perClass, updateFn_same]
          refine List.mem_cons_of_mem _ ?_
          rw [hR8]
          exact hx
        · rw [updateClass_perClass, updateFn_other _ _ _ _ hcid, hR4 cid hcid]
          exact hx


theorem magPut_full (m : List Nat) (v : Nat) (h : MAGAZINE_SIZE ≤ m.length) :
    magPut m v = (some v, m) := by
  unfold magPut
  rw [if_pos h]

theorem magPut_ok (m : List Nat) (v : Nat) (h : ¬ MAGAZINE_SIZE ≤ m.length) :
    magPut m v = (none, v :: m) := by
  unfold magPut
  rw [if_neg h]

theorem count_erase_of_mem (l : List Nat) (a : Nat) (h : a ∈ l) (y : Nat) :
    l.count y = (l.erase a).count y + if y = a then 1 else 0 := by
  have hc := (List.perm_cons_erase h).count_eq y
  rw [hc, List.count_cons]
  rcases eq_or_ne y a with rfl | hy
  · simp
  · simp [hy, Ne.symm hy]

theorem sysRelease_eq_skip (c : ClassDesc) (a : Nat) (st : SysState)
    (h : a ∉ (st.perClass c.id).callers) : sysRelease c a st = st := by
  unfold sysRelease
  rw [if_neg h]

theorem sysRelease_eq_push (c : ClassDesc) (a : Nat) (st : SysState)
    (hmem : a ∈ (st.perClass c.id).callers)
    (hroom : ¬ MAGAZINE_SIZE ≤ (st.perClass c.id).relMag.length) :
    sysRelease c a st = updateClass st c.id
      { st.perClass c.id with
        relMag := a :: (st.perClass c.id).relMag,
        callers := (st.perClass c.id).callers.erase a,
        releaseCount := (st.perClass c.id).releaseCount + 1 } := by
  simp only [sysRelease, if_pos hmem, magPut_ok _ _ hroom]

theorem sysRelease_eq_spill_part (c : ClassDesc) (a : Nat) (st : SysState)
    (newMag : List Nat) (restPart : List (List Nat))
    (hmem : a ∈ (st.perClass c.id).callers)
    (hfull : MAGAZINE_SIZE ≤ (st.perClass c.id).relMag.length)
    (hpm : (st.perClass c.id).partMags = newMag :: restPart) :
    sysRelease c a st = updateClass st c.id
      (releaseMagazine
        { st.perClass c.id with
          partMags := restPart,
          relMag := (magPut newMag a).2,
          callers := (st.perClass c.id).callers.erase a,
          releaseCount := (st.perClass c.id).releaseCount + 1 }
        (st.perClass c.id).relMag) := by
  simp only [sysRelease, if_pos hmem, magPut_full _ _ hfull, hpm]

theorem sysRelease_eq_spill_empty (c : ClassDesc) (a : Nat) (st : SysState)
    (hmem : a ∈ (st.perClass c.id).callers)
    (hfull : MAGAZINE_SIZE ≤ (st.perClass c.id).relMag.length)
    (hpm : (st.perClass c.id).partMags = []) :
    sysRelease c a st = updateClass st c.id
      (releaseMagazine
        { st.perClass c.id with
          relMag := (magPut [] a).2,
          callers := (st.perClass c.id).callers.erase a,
          releaseCount := (st.perClass c.id).releaseCount + 1 }
        (st.perClass c.id).relMag) := by
  simp only [sysRelease, if_pos hmem, magPut_full _ _ hfull, hpm]

/-- `Cache::release` (slow path): a released address moves from the
caller set back into the magazines (or, on a spill into a full depot
magazine, is dropped by the model together with the overflow check),
so the tracked containers stay inside the issue log, the counters
balance, and nothing else changes. -/
theorem sysRelease_inv (classes : List ClassDesc) (chunkData : Nat → Nat)
    (c : ClassDesc) (a : Nat) (st : SysState)
    (_ho : ChunkOracleOk chunkData) (hcls : ClassesOk classes) (hc : c ∈ classes)
    (hM : MetaInv classes chunkData st) (hCl : ∀ c' ∈ classes, ClassInv c' st) :
    MetaInv classes chunkData (sysRelease c a st) ∧
    metasStable st.metas (sysRelease c a st).metas ∧
    (sysRelease c a st).mem = st.mem ∧
    (∀ c' ∈ classes, ClassInv c' (sysRelease c a st)) ∧
    (∀ cid, ∀ x ∈ (st.perClass cid).allocLog,
      x ∈ ((sysRelease c a st).perClass cid).allocLog) := by
  have hidne : ∀ c' ∈ classes, c' ≠ c → c'.id ≠ c.id := fun c' hc' hne hid =>
    hne (class_unique classes hcls c' c hc' hc hid)
  obtain ⟨hIss, hNd, hLe, hLog, hCnt, hPne, hFne⟩ := hCl c hc
  by_cases hmem : a ∈ (st.perClass c.id).callers
  · have he := count_erase_of_mem (st.perClass c.id).callers a hmem
    have hlpos : 0 < (st.perClass c.id).callers.length :=
      List.length_pos.mpr (List.ne_nil_of_mem hmem)
    have hlerase : ((st.perClass c.id).callers.erase a).length
        = (st.perClass c.id).callers.length - 1 := List.length_erase_of_mem hmem
    by_cases hfull : MAGAZINE_SIZE ≤ (st.perClass c.id).relMag.length
    · cases hpm : (st.perClass c.id).partMags with
      | cons newMag restPart =>
        rw [sysRelease_eq_spill_part c a st newMag restPart hmem hfull hpm]
        have hpc' : (updateClass st c.id
              (releaseMagazine
                { st.perClass c.id with
                  partMags := restPart,
                  relMag := (magPut newMag a).2,
                  callers := (st.perClass c.id).callers.erase a,
                  releaseCount := (st.perClass c.id).releaseCount + 1 }
                (st.perClass c.id).relMag)).perClass c.id
            = releaseMagazine
                { st.perClass c.id with
                  partMags := restPart,
                  relMag := (magPut newMag a).2,
                  callers := (st.perClass c.id).callers.erase a,
                  releaseCount := (st.perClass c.id).releaseCount + 1 }
                (st.perClass c.id).relMag := by
          rw [updateClass_perClass, updateFn_same]
        obtain ⟨rc, ra, rr, rac, rrc, ri, rl⟩ := releaseMagazine_same
          { st.perClass c.id with
            partMags := restPart,
            relMag := (magPut newMag a).2,
            callers := (st.perClass c.id).callers.erase a,
            releaseCount := (st.perClass c.id).releaseCount + 1 }
          ((st.perClass c.id).relMag)
        have hsub : (↑(containers
              (releaseMagazine
                { st.perClass c.id with
                  partMags := restPart,
                  relMag := (magPut newMag a).2,
                  callers := (st.perClass c.id).callers.erase a,
                  releaseCount := (st.perClass c.id).releaseCount + 1 }
                (st.perClass c.id).relMag)) : Multiset Nat)
            ≤ ↑(containers (st.perClass c.id)) := by
          rw [containers_releaseMagazine]
          rw [Multiset.le_iff_count]
          intro y
          have hey := he y
          unfold containers
          by_cases hnf : MAGAZINE_SIZE ≤ newMag.length
          · rw [magPut_full _ _ hnf]
            by_cases hy : y = a
            · subst hy
              simp [List.count_append, List.count_cons, beq_iff_eq, hpm] at hey ⊢
              omega
            · simp [List.count_append, List.count_cons, beq_iff_eq, hy, hpm] at hey ⊢
              omega
          · rw [magPut_ok _ _ hnf]
            by_cases hy : y = a
            · subst hy
              simp [List.count_append, List.count_cons, beq_iff_eq, hpm] at hey ⊢
              omega
            · simp [List.count_append, List.count_cons, beq_iff_eq, hy, hpm] at hey ⊢
              omega
        refine ⟨MetaInv_ext classes chunkData st _ rfl rfl rfl hM, metasStable_refl _,
          rfl, ?_, ?_⟩
        · intro c' hc'
          by_cases hcc : c' = c
          · subst hcc
            unfold ClassInv
            rw [hpc']
            refine ⟨?_, ?_, ?_, ?_, ?_, ?_, ?_⟩
            · intro x hx
              rw [ri] at hx
              have hx' : x ∈ (st.perClass c'.id).issued := hx
              exact hIss x hx'
            · rw [ri]
              exact hNd
            · rw [ri]
              exact le_trans hsub hLe
            · intro x hx
              rw [rl] at hx
              rw [ri]
              have hx' : x ∈ (st.perClass c'.id).allocLog := hx
              exact hLog x hx'
            · rw [rc, rac, rrc]
              show ((st.perClass c'.id).callers.erase a).length
                  + ((st.perClass c'.id).releaseCount + 1)
                  = (st.perClass c'.id).allocCount
              omega
            · apply releaseMagazine_partMags_ne
              intro x hx
              have hx' : x ∈ restPart := hx
              refine hPne x ?_
              rw [hpm]
              exact List.mem_cons_of_mem _ hx'
            · apply releaseMagazine_fullMags_ne
              intro x hx
              have hx' : x ∈ (st.perClass c'.id).fullMags := hx
              exact hFne x hx'
          · refine ClassInv_ext c' st _ ?_ (metasStable_refl st.metas) (hCl c' hc')
            rw [updateClass_perClass, updateFn_other _ _ _ _ (hidne c' hc' hcc)]
        · intro cid x hx
          by_cases hcid : cid = c.id
          · subst hcid
            rw [hpc', rl]
            exact hx
          · rw [updateClass_perClass, updateFn_other _ _ _ _ hcid]
            exact hx
      | nil =>
        rw [sysRelease_eq_spill_empty c a st hmem hfull hpm]
        have hpc' : (updateClass st c.id
              (releaseMagazine
                { st.perClass c.id with
                  relMag := (magPut [] a).2,
                  callers := (st.perClass c.id).callers.erase a,
                  releaseCount := (st.perClass c.id).releaseCount + 1 }
                (st.perClass c.id).relMag)).perClass c.id
            = releaseMagazine
                { st.perClass c.id with
                  relMag := (magPut [] a).2,
                  callers := (st.perClass c.id).callers.erase a,
                  releaseCount := (st.perClass c.id).releaseCount + 1 }
                (st.perClass c.id).relMag := by
          rw [updateClass_perClass, updateFn_same]
        obtain ⟨rc, ra, rr, rac, rrc, ri, rl⟩ := releaseMagazine_same
          { st.perClass c.id with
            relMag := (magPut [] a).2,
            callers := (st.perClass c.id).callers.erase a,
            releaseCount := (st.perClass c.id).releaseCount + 1 }
          ((st.perClass c.id).relMag)
        have hsub : (↑(containers
              (releaseMagazine
                { st.perClass c.id with
                  relMag := (magPut [] a).2,
                  callers := (st.perClass c.id).callers.erase a,
                  releaseCount := (st.perClass c.id).releaseCount + 1 }
                (st.perClass c.id).relMag)) : Multiset Nat)
            ≤ ↑(containers (st.perClass c.id)) := by
          rw [containers_releaseMagazine]
          rw [Multiset.le_iff_count]
          intro y
          have hey := he y
          unfold containers
          rw [magPut_ok [] a (by decide)]
          by_cases hy : y = a
          · subst hy
            simp [List.count_append, List.count_cons, beq_iff_eq, hpm] at hey ⊢
            omega
          · simp [List.count_append, List.count_cons, beq_iff_eq, hy, hpm] at hey ⊢
            omega
        refine ⟨MetaInv_ext classes chunkData st _ rfl rfl rfl hM, metasStable_refl _,
          rfl, ?_, ?_⟩
        · intro c' hc'
          by_cases hcc : c' = c
          · subst hcc
            unfold ClassInv
            rw [hpc']
            refine ⟨?_, ?_, ?_, ?_, ?_, ?_, ?_⟩
            · intro x hx
              rw [ri] at hx
              have hx' : x ∈ (st.perClass c'.id).issued := hx
              exact hIss x hx'
            · rw [ri]
              exact hNd
            · rw [ri]
              exact le_trans hsub hLe
            · intro x hx
              rw [rl] at hx
              rw [ri]
              have hx' : x ∈ (st.perClass c'.id).allocLog := hx
              exact hLog x hx'
            · rw [rc, rac, rrc]
              show ((st.perClass c'.id).callers.erase a).length
                  + ((st.perClass c'.id).releaseCount + 1)
                  = (st.perClass c'.id).allocCount
              omega
            · apply releaseMagazine_partMags_ne
              intro x hx
              have hx' : x ∈ (st.perClass c'.id).partMags := hx
              exact hPne x hx'
            · apply releaseMagazine_fullMags_ne
              intro x hx
              have hx' : x ∈ (st.perClass c'.id).fullMags := hx
              exact hFne x hx'
          · refine ClassInv_ext c' st _ ?_ (metasStable_refl st.metas) (hCl c' hc')
            rw [updateClass_perClass, updateFn_other _ _ _ _ (hidne c' hc' hcc)]
        · intro cid x hx
          by_cases hcid : cid = c.id
          · subst hcid
            rw [hpc', rl]
            exact hx
          · rw [updateClass_perClass, updateFn_other _ _ _ _ hcid]
            exact hx
    · rw [sysRelease_eq_push c a st hmem hfull]
      have hpc' : (updateClass st c.id
            { st.perClass c.id with
              relMag := a :: (st.perClass c.id).relMag,
              callers := (st.perClass c.id).callers.erase a,
              releaseCount := (st.perClass c.id).releaseCount + 1 }).perClass c.id
          = { st.perClass c.id with
              relMag := a :: (st.perClass c.id).relMag,
              callers := (st.perClass c.id).callers.erase a,
              releaseCount := (st.perClass c.id).releaseCount + 1 } := by
        rw [updateClass_perClass, updateFn_same]
      have hsub : (↑(containers
            { st.perClass c.id with
              relMag := a :: (st.perClass c.id).relMag,
              callers := (st.perClass c.id).callers.erase a,
              releaseCount := (st.perClass c.id).releaseCount + 1 }) : Multiset Nat)
          ≤ ↑(containers (st.perClass c.id)) := by
        rw [Multiset.le_iff_count]
        intro y
        have hey := he y
        unfold containers
        by_cases hy : y = a
        · subst hy
          simp [List.count_append, List.count_cons, beq_iff_eq] at hey ⊢
          omega
        · simp [List.count_append, List.count_cons, beq_iff_eq, hy] at hey ⊢
      refine ⟨MetaInv_ext classes chunkData st _ rfl rfl rfl hM, metasStable_refl _,
        rfl, ?_, ?_⟩
      · intro c' hc'
        by_cases hcc : c' = c
        · subst hcc
          unfold ClassInv
          rw [hpc']
          refine ⟨?_, hNd, le_trans hsub hLe, ?_, ?_, ?_, ?_⟩
          · intro x hx
            have hx' : x ∈ (st.perClass c'.id).issued := hx
            exact hIss x hx'
          · intro x hx
            have hx' : x ∈ (st.perClass c'.id).allocLog := hx
            exact hLog x hx'
          · show ((st.perClass c'.id).callers.erase a).length
                + ((st.perClass c'.id).releaseCount + 1)
                = (st.perClass c'.id).allocCount
            omega
          · intro m hm
            have hm' : m ∈ (st.perClass c'.id).partMags := hm
            exact hPne m hm'
          · intro m hm
            have hm' : m ∈ (st.perClass c'.id).fullMags := hm
            exact hFne m hm'
        · refine ClassInv_ext c' st _ ?_ (metasStable_refl st.metas) (hCl c' hc')
          rw [updateClass_perClass, updateFn_other _ _ _ _ (hidne c' hc' hcc)]
      · intro cid x hx
        by_cases hcid : cid = c.id
        · subst hcid
          rw [hpc']
          exact hx
        · rw [updateClass_perClass, updateFn_other _ _ _ _ hcid]
          exact hx
  · rw [sysRelease_eq_skip c a st hmem]
    exact ⟨hM, metasStable_refl _, rfl, hCl, fun cid x hx => hx⟩


/-! ### Trace invariant -/

/-- Whole-system invariant: press invariant plus every registered
class's tracking invariant. -/
def Inv (classes : List ClassDesc) (chunkData : Nat → Nat) (st : SysState) : Prop :=
  MetaInv classes chunkData st ∧ ∀ c ∈ classes, ClassInv c st

theorem stepEvent_alloc_eq (chunkData : Nat → Nat) (classes : List ClassDesc)
    (st : SysState) (cid : Nat) (c : ClassDesc)
    (hfc : findClass classes cid = some c) :
    stepEvent chunkData classes st (Event.alloc cid)
      = (sysAllocate chunkData c st).2 := by
  simp only [stepEvent, hfc]

theorem stepEvent_alloc_none (chunkData : Nat → Nat) (classes : List ClassDesc)
    (st : SysState) (cid : Nat) (hfc : findClass classes cid = none) :
    stepEvent chunkData classes st (Event.alloc cid) = st := by
  simp only [stepEvent, hfc]

theorem stepEvent_free_eq (chunkData : Nat → Nat) (classes : List ClassDesc)
    (st : SysState) (cid : Nat) (a : Nat) (c : ClassDesc)
    (hfc : findClass classes cid = some c) :
    stepEvent chunkData classes st (Event.free cid a) = sysRelease c a st := by
  simp only [stepEvent, hfc]

theorem stepEvent_free_none (chunkData : Nat → Nat) (classes : List ClassDesc)
    (st : SysState) (cid : Nat) (a : Nat) (hfc : findClass classes cid = none) :
    stepEvent chunkData classes st (Event.free cid a) = st := by
  simp only [stepEvent, hfc]

theorem stepEvent_write_eq (chunkData : Nat → Nat) (classes : List ClassDesc)
    (st : SysState) (cid : Nat) (a v : Nat) (c : ClassDesc)
    (hfc : findClass classes cid = some c) :
    stepEvent chunkData classes st (Event.write cid a v)
      = if a ∈ (st.perClass c.id).callers then { st with mem := updateFn st.mem a v }
        else st := by
  simp only [stepEvent, hfc]

theorem stepEvent_write_none (chunkData : Nat → Nat) (classes : List ClassDesc)
    (st : SysState) (cid : Nat) (a v : Nat) (hfc : findClass classes cid = none) :
    stepEvent chunkData classes st (Event.write cid a v) = st := by
  simp only [stepEvent, hfc]

/-- One trace event preserves the invariant, only grows the committed
metadata, and never removes an entry from an allocation log. -/
theorem stepEvent_inv (classes : List ClassDesc) (chunkData : Nat → Nat)
    (ho : ChunkOracleOk chunkData) (hcls : ClassesOk classes)
    (st : SysState) (e : Event) (h : Inv classes chunkData st) :
    Inv classes chunkData (stepEvent chunkData classes st e) ∧
    metasStable st.metas (stepEvent chunkData classes st e).metas ∧
    (∀ cid, ∀ x ∈ (st.perClass cid).allocLog,
      x ∈ ((stepEvent chunkData classes st e).perClass cid).allocLog) := by
  obtain ⟨hM, hCl⟩ := h
  cases e with
  | alloc cid =>
    cases hfc : findClass classes cid with
    | none =>
      rw [stepEvent_alloc_none chunkData classes st cid hfc]
      exact ⟨⟨hM, hCl⟩, metasStable_refl _, fun _ _ hx => hx⟩
    | some c =>
      rw [stepEvent_alloc_eq chunkData classes st cid c hfc]
      have hc : c ∈ classes := List.mem_of_find?_eq_some hfc
      rcases hsa : sysAllocate chunkData c st with ⟨res, st'⟩
      obtain ⟨hM', hs', hm', hCl', hlog'⟩ :=
        sysAllocate_inv classes chunkData c st res st' ho hcls hc hM hCl hsa
      exact ⟨⟨hM', hCl'⟩, hs', hlog'⟩
  | free cid a =>
    cases hfc : findClass classes cid with
    | none =>
      rw [stepEvent_free_none chunkData classes st cid a hfc]
      exact ⟨⟨hM, hCl⟩, metasStable_refl _, fun _ _ hx => hx⟩
    | some c =>
      rw [stepEvent_free_eq chunkData classes st cid a c hfc]
      have hc : c ∈ classes := List.mem_of_find?_eq_some hfc
      obtain ⟨hM', hs', hm', hCl', hlog'⟩ :=
        sysRelease_inv classes chunkData c a st ho hcls hc hM hCl
      exact ⟨⟨hM', hCl'⟩, hs', hlog'⟩
  | write cid a v =>
    cases hfc : findClass classes cid with
    | none =>
      rw [stepEvent_write_none chunkData classes st cid a v hfc]
      exact ⟨⟨hM, hCl⟩, metasStable_refl _, fun _ _ hx => hx⟩
    | some c =>
      rw [stepEvent_write_eq chunkData classes st cid a v c hfc]
      by_cases hcal : a ∈ (st.perClass c.id).callers
      · rw [if_pos hcal]
        refine ⟨⟨MetaInv_ext classes chunkData st _ rfl rfl rfl hM, ?_⟩,
          metasStable_refl _, fun _ _ hx => hx⟩
        intro c' hc'
        exact ClassInv_ext c' st _ rfl (metasStable_refl st.metas) (hCl c' hc')
      · rw [if_neg hcal]
        exact ⟨⟨hM, hCl⟩, metasStable_refl _, fun _ _ hx => hx⟩

/-- Invariant holds in the fresh state. -/
theorem Inv_initial (classes : List ClassDesc) (chunkData : Nat → Nat) :
    Inv classes chunkData SysState.initial := by
  refine ⟨⟨List.nodup_nil, ?_, ?_⟩, ?_⟩
  · intro p hp
    exact absurd hp (List.not_mem_nil p)
  · intro cid k hk
    exact Option.noConfusion hk
  · intro c _
    refine ⟨?_, List.nodup_nil, le_rfl, ?_, rfl, ?_, ?_⟩
    · intro a ha
      exact absurd ha (List.not_mem_nil a)
    · intro a ha
      exact absurd ha (List.not_mem_nil a)
    · intro m hm
      exact absurd hm (List.not_mem_nil m)
    · intro m hm
      exact absurd hm (List.not_mem_nil m)

/-- Trace induction: the invariant, metadata stability and allocation
logs all carry over every suffix of events. -/
theorem foldl_inv (classes : List ClassDesc) (chunkData : Nat → Nat)
    (ho : ChunkOracleOk chunkData) (hcls : ClassesOk classes) :
    ∀ (tr : List Event) (st : SysState), Inv classes chunkData st →
      Inv classes chunkData (tr.foldl (stepEvent chunkData classes) st) ∧
      metasStable st.metas (tr.foldl (stepEvent chunkData classes) st).metas ∧
      (∀ cid, ∀ x ∈ (st.perClass cid).allocLog,
        x ∈ ((tr.foldl (stepEvent chunkData classes) st).perClass cid).allocLog) := by
  intro tr
  induction tr with
  | nil =>
    intro st h
    exact ⟨h, metasStable_refl _, fun _ _ hx => hx⟩
  | cons e tr ih =>
    intro st h
    obtain ⟨h1, hs1, hl1⟩ := stepEvent_inv classes chunkData ho hcls st e h
    obtain ⟨h2, hs2, hl2⟩ := ih (stepEvent chunkData classes st e) h1
    rw [List.foldl_cons]
    refine ⟨h2, metasStable_trans _ _ _ hs1 hs2, ?_⟩
    intro cid x hx
    exact hl2 cid x (hl1 cid x hx)

/-- The invariant holds after every trace from the fresh state. -/
theorem runTrace_inv (classes : List ClassDesc) (chunkData : Nat → Nat)
    (ho : ChunkOracleOk chunkData) (hcls : ClassesOk classes) (tr : List Event) :
    Inv classes chunkData (runTrace chunkData classes tr) :=
  (foldl_inv classes chunkData ho hcls tr SysState.initial
    (Inv_initial classes chunkData)).1

end Sys



/-- The concrete placement oracle used by the trace witnesses. -/
theorem chunkOracle_concrete : Sys.ChunkOracleOk (fun n => (n + 1) * 2097152) := by
  unfold Sys.ChunkOracleOk
  refine ⟨?_, ?_, ?_⟩
  · intro n
    show (n + 1) * 2097152 % Press.DATA_ALIGNMENT = 0
    have hDA : Press.DATA_ALIGNMENT = 2097152 := rfl
    rw [hDA]
    omega
  · intro n
    show Press.DATA_ALIGNMENT ≤ (n + 1) * 2097152
    have hDA : Press.DATA_ALIGNMENT = 2097152 := rfl
    rw [hDA]
    omega
  · intro x y hxy
    have hxy' : (x + 1) * 2097152 = (y + 1) * 2097152 := hxy
    omega

/-- The concrete one-class registry used by the trace witnesses. -/
theorem classesOk_concrete : Sys.ClassesOk [⟨1, 8, true⟩] := by
  unfold Sys.ClassesOk
  refine ⟨?_, ?_⟩
  · decide
  · decide

/-- CLAIM C1: type stability.  Once `allocate(c)` has logged an address
`a`, then at every later instant of the trace the release validator
accepts `(c, a)` (`check_allocation` finds metadata whose stored class
id is `c.id`), rejects `(c', a)` for every other registered class, and
the metadata record derived from `a` carries `class_id = c.id`, written
when the chunk was installed and never changed. -/
theorem c1_type_stability (classes : List Sys.ClassDesc) (chunkData : Nat → Nat)
    (ho : Sys.ChunkOracleOk chunkData) (hcls : Sys.ClassesOk classes)
    (tr1 tr2 : List Sys.Event) (c : Sys.ClassDesc) (hc : c ∈ classes) (a : Nat)
    (ha : a ∈ ((Sys.runTrace chunkData classes tr1).perClass c.id).allocLog) :
    Press.check_allocation (Sys.runTrace chunkData classes (tr1 ++ tr2)).metas
      c.id a = true ∧
    (∀ c' ∈ classes, c' ≠ c →
      Press.check_allocation (Sys.runTrace chunkData classes (tr1 ++ tr2)).metas
        c'.id a = false) ∧
    (∃ m, (Sys.runTrace chunkData classes (tr1 ++ tr2)).metas.lookup
        (Press.ChunkMetadata.from_allocation_address a) = some m ∧
      m.class_id = some c.id) := by
  have hsplit : Sys.runTrace chunkData classes (tr1 ++ tr2)
      = tr2.foldl (Sys.stepEvent chunkData classes)
          (Sys.runTrace chunkData classes tr1) := by
    unfold Sys.runTrace
    rw [List.foldl_append]
  rw [hsplit]
  obtain ⟨hM1, hCl1⟩ := Sys.runTrace_inv classes chunkData ho hcls tr1
  obtain ⟨hInv2, hs12, _⟩ := Sys.foldl_inv classes chunkData ho hcls tr2
    (Sys.runTrace chunkData classes tr1) ⟨hM1, hCl1⟩
  obtain ⟨hM2, _⟩ := hInv2
  obtain ⟨hIss1, _, _, hLog1, _, _, _⟩ := hCl1 c hc
  have hent2 : Sys.IssuedEntry c
      (tr2.foldl (Sys.stepEvent chunkData classes)
        (Sys.runTrace chunkData classes tr1)).metas a :=
    Sys.IssuedEntry_mono c _ _ hs12 a (hIss1 a (hLog1 a ha))
  obtain ⟨hndk, hentok, _⟩ := hM2
  obtain ⟨p, hp, hpcl, i, hi1, hi2, hae⟩ := hent2
  obtain ⟨⟨n, hn, hbeg⟩, hkey, cm, hcm, hcmid, hcml⟩ := hentok p hp
  have hcmc : cm = c := by
    apply Sys.class_unique classes hcls cm c hcm hc
    have hh := hcmid
    rw [hpcl] at hh
    exact (Option.some.inj hh).symm
  obtain ⟨_, hsz0, _⟩ := hcls.1 c hc
  have hlim : p.2.bump_limit = Press.DATA_ALIGNMENT / c.size := by rw [hcml, hcmc]
  have hi1' : i < Press.DATA_ALIGNMENT / c.size := by
    rw [← hlim]
    exact hi1
  have halignb : p.2.chunk_begin % Press.DATA_ALIGNMENT = 0 := by
    rw [hbeg]
    exact ho.1 n
  have hkeyeq : Press.ChunkMetadata.from_allocation_address a = p.1 := by
    rw [hae, hkey]
    exact Sys.issued_key p.2.chunk_begin i c.size halignb hsz0 hi1'
  have hpmem : (p.1, p.2) ∈ (tr2.foldl (Sys.stepEvent chunkData classes)
      (Sys.runTrace chunkData classes tr1)).metas := by
    simpa using hp
  have hlk : (tr2.foldl (Sys.stepEvent chunkData classes)
      (Sys.runTrace chunkData classes tr1)).metas.lookup p.1 = some p.2 :=
    Sys.lookup_of_mem_nodup _ _ _ hpmem hndk
  refine ⟨?_, ?_, ?_⟩
  · simp only [Press.check_allocation, hkeyeq, hlk]
    rw [hpcl]
    simp
  · intro c' hc' hne
    simp only [Press.check_allocation, hkeyeq, hlk]
    rw [hpcl]
    rw [beq_eq_false_iff_ne]
    intro heq
    exact hne (Sys.class_unique classes hcls c' c hc' hc
      (Option.some.inj heq).symm)
  · refine ⟨p.2, ?_, hpcl⟩
    rw [hkeyeq]
    exact hlk

set_option maxRecDepth 1000000 in
/-- Witness for C1: in a one-class system, the single allocated address
2097152 is in the allocation log, and the validator accepts it for
class id 1 at the same instant. -/
theorem c1_type_stability_witness :
    (2097152 ∈ ((Sys.runTrace (fun n => (n + 1) * 2097152)
        [⟨1, 8, true⟩] [Sys.Event.alloc 1]).perClass 1).allocLog) ∧
    Press.check_allocation (Sys.runTrace (fun n => (n + 1) * 2097152)
        [⟨1, 8, true⟩] ([Sys.Event.alloc 1] ++ [])).metas 1 2097152 = true := by
  have ha : 2097152 ∈ ((Sys.runTrace (fun n => (n + 1) * 2097152)
      [⟨1, 8, true⟩] [Sys.Event.alloc 1]).perClass 1).allocLog := by decide
  refine ⟨ha, ?_⟩
  have h := c1_type_stability [⟨1, 8, true⟩] (fun n => (n + 1) * 2097152)
    chunkOracle_concrete classesOk_concrete [Sys.Event.alloc 1] [] ⟨1, 8, true⟩
    (List.mem_singleton.mpr rfl) 2097152 ha
  exact h.1

/-- CLAIM C2 (amended): at any instant of any sequential trace, the
addresses tracked for a class (caller-held and in the alloc, release,
depot-full and depot-partial magazines) are pairwise distinct, the
caller-held count equals successful allocations minus successful
releases, and none of them lies in the unreserved bump-pointer range of
the chunk currently serving the class.  (The claim's literal count
equation is refuted by `c2_counterexample`: the magazines batch press
objects, so the tracked total exceeds allocations minus releases.) -/
theorem c2_uniqueness_amended (classes : List Sys.ClassDesc) (chunkData : Nat → Nat)
    (ho : Sys.ChunkOracleOk chunkData) (hcls : Sys.ClassesOk classes)
    (tr : List Sys.Event) (c : Sys.ClassDesc) (hc : c ∈ classes) :
    (Sys.containers ((Sys.runTrace chunkData classes tr).perClass c.id)).Nodup ∧
    ((Sys.runTrace chunkData classes tr).perClass c.id).callers.length
        + ((Sys.runTrace chunkData classes tr).perClass c.id).releaseCount
      = ((Sys.runTrace chunkData classes tr).perClass c.id).allocCount ∧
    (∀ a ∈ Sys.containers ((Sys.runTrace chunkData classes tr).perClass c.id),
      ∀ k m, (Sys.runTrace chunkData classes tr).bump c.id = some k →
        (Sys.runTrace chunkData classes tr).metas.lookup k = some m →
        ∀ i, m.bump_ptr ≤ i → i < m.bump_limit →
          a ≠ m.chunk_begin + i * c.size) := by
  obtain ⟨hM, hCl⟩ := Sys.runTrace_inv classes chunkData ho hcls tr
  obtain ⟨hIss, hNd, hLe, _, hCnt, _, _⟩ := hCl c hc
  obtain ⟨hndk, hentok, hbump⟩ := hM
  refine ⟨?_, hCnt, ?_⟩
  · exact Multiset.coe_nodup.mp
      (Multiset.nodup_of_le hLe (Multiset.coe_nodup.mpr hNd))
  · intro a hacont k m hbk hlk i hgei hlti
    have hamem : a ∈ ((Sys.runTrace chunkData classes tr).perClass c.id).issued :=
      Sys.containers_sub_issued c _ hLe a hacont
    obtain ⟨p, hp, hpcl, j, hj1, hj2, hae⟩ := hIss a hamem
    have hmmem : (k, m) ∈ (Sys.runTrace chunkData classes tr).metas :=
      Sys.mem_of_lookup _ _ _ hlk
    have hmcl : m.class_id = some c.id := by
      obtain ⟨m0, hm0, hm0cl⟩ := hbump c.id k hbk
      have hmm0 : m = m0 := Sys.mem_key_unique _ k m m0 hndk hmmem hm0
      rw [hmm0]
      exact hm0cl
    obtain ⟨⟨n, hn, hbeg⟩, hkey, cm, hcm, hcmid, hcml⟩ := hentok (k, m) hmmem
    obtain ⟨⟨n', hn', hbeg'⟩, hkey', cp, hcp, hcpid, hcpl⟩ := hentok p hp
    have hcmc : cm = c := by
      apply Sys.class_unique classes hcls cm c hcm hc
      have hh := hcmid
      rw [hmcl] at hh
      exact (Option.some.inj hh).symm
    have hcpc : cp = c := by
      apply Sys.class_unique classes hcls cp c hcp hc
      have hh := hcpid
      rw [hpcl] at hh
      exact (Option.some.inj hh).symm
    obtain ⟨_, hsz0, _⟩ := hcls.1 c hc
    have hlimm : m.bump_limit = Press.DATA_ALIGNMENT / c.size := by rw [hcml, hcmc]
    have hlimp : p.2.bump_limit = Press.DATA_ALIGNMENT / c.size := by rw [hcpl, hcpc]
    by_cases hcb : p.2.chunk_begin = m.chunk_begin
    · have hpk : p.1 = k := by rw [hkey', hcb, ← hkey]
      have hpmem : (k, p.2) ∈ (Sys.runTrace chunkData classes tr).metas := by
        rw [← hpk]
        simpa using hp
      have hpm : p.2 = m := Sys.mem_key_unique _ k p.2 m hndk hpmem hmmem
      have hj2' : j < m.bump_ptr := by
        rw [← hpm]
        exact hj2
      intro he
      rw [hae, hpm] at he
      have hmul : j * c.size = i * c.size := by omega
      have := Nat.eq_of_mul_eq_mul_right hsz0 hmul
      omega
    · rw [hae]
      apply Sys.addr_ne_of_chunk_ne p.2.chunk_begin m.chunk_begin j i c.size c.size
      · rw [hbeg']
        exact ho.1 n'
      · rw [hbeg]
        exact ho.1 n
      · exact hcb
      · have h1 : j < Press.DATA_ALIGNMENT / c.size := by
          rw [← hlimp]
          exact hj1
        have h2 := Sys.mul_lt_DA c.size j hsz0 h1
        omega
      · have h1 : i < Press.DATA_ALIGNMENT / c.size := by
          rw [← hlimm]
          exact hlti
        have h2 := Sys.mul_lt_DA c.size i hsz0 h1
        omega

/-- Witness for C2 (amended) after a single allocation: the 31 tracked
addresses are pairwise distinct and exactly one caller holds one. -/
theorem c2_uniqueness_amended_witness :
    (Sys.containers ((Sys.runTrace (fun n => (n + 1) * 2097152)
        [⟨1, 8, true⟩] [Sys.Event.alloc 1]).perClass 1)).Nodup ∧
    ((Sys.runTrace (fun n => (n + 1) * 2097152)
          [⟨1, 8, true⟩] [Sys.Event.alloc 1]).perClass 1).callers.length
        + ((Sys.runTrace (fun n => (n + 1) * 2097152)
          [⟨1, 8, true⟩] [Sys.Event.alloc 1]).perClass 1).releaseCount
      = ((Sys.runTrace (fun n => (n + 1) * 2097152)
          [⟨1, 8, true⟩] [Sys.Event.alloc 1]).perClass 1).allocCount := by
  have h := c2_uniqueness_amended [⟨1, 8, true⟩] (fun n => (n + 1) * 2097152)
    chunkOracle_concrete classesOk_concrete [Sys.Event.alloc 1] ⟨1, 8, true⟩
    (List.mem_singleton.mpr rfl)
  exact ⟨h.1, h.2.1⟩

set_option maxRecDepth 100000 in
/-- CLAIM C2 (counterexample) -- the claim counts the addresses in the
magazines together with the caller-held ones: after a single successful
`allocate(c)` call from a fresh state, the refill path batches 30
objects from the press into the alloc magazine besides the one handed
to the caller, so the claimed disjoint union holds 31 addresses while
successful allocates minus successful releases is 1. -/
theorem c2_counterexample :
    (Sys.containers ((Sys.runTrace (fun n => (n + 1) * 2097152)
        [⟨1, 8, true⟩] [Sys.Event.alloc 1]).perClass 1)).length = 31 ∧
    ((Sys.runTrace (fun n => (n + 1) * 2097152)
        [⟨1, 8, true⟩] [Sys.Event.alloc 1]).perClass 1).allocCount = 1 ∧
    ((Sys.runTrace (fun n => (n + 1) * 2097152)
        [⟨1, 8, true⟩] [Sys.Event.alloc 1]).perClass 1).releaseCount = 0 := by
  constructor
  · decide
  constructor
  · decide
  · decide

set_option maxRecDepth 1000000 in
/-- CLAIM C3 (failing execution) -- zero-init is not honored by this
tree: for the class with `size = 8, zero_init = true`, the trace that
allocates 31 objects, writes `42` into the caller-held object at
address `2097168`, releases all 31 objects (filling the cache release
magazine, spilling the full magazine into the depot), makes the next
`allocate` hand out address `2097168` again — popped from the depot
full magazine without any zeroing — with its byte still `42 ≠ 0` at the
moment of return. -/
theorem c3_zero_init_not_honored :
    (Sys.ClassDesc.mk 1 8 true).zero_init = true ∧
    (Sys.sysAllocate (fun n => (n + 1) * 2097152) (Sys.ClassDesc.mk 1 8 true)
      (Sys.runTrace (fun n => (n + 1) * 2097152) [Sys.ClassDesc.mk 1 8 true]
        ((List.replicate 31 (Sys.Event.alloc 1))
          ++ [Sys.Event.write 1 2097168 42]
          ++ (Sys.Event.free 1 2097152 ::
              (List.range 30).map (fun i => Sys.Event.free 1 (2097392 - 8 * i)))))).1
      = some 2097168 ∧
    (Sys.sysAllocate (fun n => (n + 1) * 2097152) (Sys.ClassDesc.mk 1 8 true)
      (Sys.runTrace (fun n => (n + 1) * 2097152) [Sys.ClassDesc.mk 1 8 true]
        ((List.replicate 31 (Sys.Event.alloc 1))
          ++ [Sys.Event.write 1 2097168 42]
          ++ (Sys.Event.free 1 2097152 ::
              (List.range 30).map (fun i => Sys.Event.free 1 (2097392 - 8 * i)))))).2.mem
      2097168 = 42 := by
  refine ⟨rfl, ?_, ?_⟩
  · decide
  · decide

end Slitter
